import Mathlib

/-!
Verification development for the instant-messaging artifact finder
(memory-forensics carver for Telegram Desktop process dumps).

The Python sources are shallowly embedded as follows.

* A process-memory byte is a `Nat` (values 0..255 in well-formed dumps).
* A Python `str` is embedded as the list of its Unicode code points
  (`List Nat`), so UTF-16 decoding, `endswith('_')`, the empty string
  and the single-NUL string are all expressible exactly.
* A memory region (one `<hex_base>_<hex_size>.dmp` file) is a base
  address plus its bytes; per the dump directory contract each file
  holds exactly `hex_size` bytes, so the region size is the length of
  its byte list.
* Python integer arithmetic on addresses is non-negative throughout the
  embedded code paths; bound checks such as `address - above >= base`
  are rendered by the equivalent `base + above <= address` to avoid
  truncated natural subtraction.
* Fallible Python code (KeyError, IndexError, AttributeError,
  TypeError, ValueError, struct.error) is embedded in `Except PyErr`.
* `datetime.fromtimestamp(n, timezone.utc)` is embedded as the plain
  seconds count `n` (the code only stores and compares dates).
* IEEE-754 doubles recovered by `struct.unpack` are kept as their raw
  64-bit little-endian bit patterns; no claim interprets float values.
-/

set_option maxRecDepth 100000

/-- Python exceptions that the embedded code can raise. -/
inductive PyErr where
  | keyError (key : String)
  | indexError
  | attributeError
  | typeError
  | valueError
  | structError
deriving DecidableEq, Repr

/-- Little-endian interpretation of a byte string as an unsigned integer,
as computed by `little_endian_to_big_endian` followed by `int(_, 16)`. -/
def leVal (bs : List Nat) : Nat :=
  bs.foldr (fun b acc => b + 256 * acc) 0

/-- The 8-byte little-endian encoding of a value, as `struct.pack('<Q', v)`. -/
def leBytes8 (v : Nat) : List Nat :=
  [v % 256, v / 256 % 256, v / 256 ^ 2 % 256, v / 256 ^ 3 % 256,
   v / 256 ^ 4 % 256, v / 256 ^ 5 % 256, v / 256 ^ 6 % 256, v / 256 ^ 7 % 256]

/-- `int(hex_string, 16)` applied to the hex dump of a byte string read
little-endian: raises ValueError exactly when the byte string is empty
(the hex string is then `''`). -/
def leInt (bs : List Nat) : Except PyErr Nat :=
  if bs = [] then Except.error PyErr.valueError else Except.ok (leVal bs)

/-- Python slice `l[s:e]` for non-negative slice indices (clamping included). -/
def pySliceN (l : List Nat) (s e : Nat) : List Nat :=
  (l.drop s).take (e - s)

/-- Normalisation of one (possibly negative) Python slice index against a length. -/
def pyIndex (len : Nat) (i : Int) : Nat :=
  if i < 0 then ((len : Int) + i).toNat else min i.toNat len

/-- Python slice `l[s:e]` for arbitrary integer indices: a negative index
counts from the end of the list, and both ends are clamped. -/
def pySlice (l : List Nat) (s e : Int) : List Nat :=
  let s' := pyIndex l.length s
  let e' := pyIndex l.length e
  (l.drop s').take (e' - s')

/-- Signed 32-bit interpretation of 4 little-endian bytes,
as `struct.unpack('<i', bs)[0]`. -/
def int32LE (bs : List Nat) : Int :=
  let v := leVal bs
  if v < 2 ^ 31 then (v : Int) else (v : Int) - 2 ^ 32

/-- UTF-16LE code units of a byte string; `none` when the byte count is odd
(Python raises UnicodeDecodeError on truncated data). -/
def utf16Units : List Nat → Option (List Nat)
  | [] => some []
  | [_] => none
  | b0 :: b1 :: rest => (utf16Units rest).map (fun us => (b0 + 256 * b1) :: us)

/-- Combining UTF-16 code units into code points; `none` on an unpaired
surrogate (Python raises UnicodeDecodeError). -/
def utf16Combine : List Nat → Option (List Nat)
  | [] => some []
  | u :: rest =>
    if 0xD800 ≤ u ∧ u ≤ 0xDBFF then
      match rest with
      | [] => none
      | v :: rest2 =>
        if 0xDC00 ≤ v ∧ v ≤ 0xDFFF then
          (utf16Combine rest2).map
            (fun cs => (0x10000 + (u - 0xD800) * 0x400 + (v - 0xDC00)) :: cs)
        else none
    else if 0xDC00 ≤ u ∧ u ≤ 0xDFFF then none
    else (utf16Combine rest).map (fun cs => u :: cs)

/-- `bytes.decode('utf-16-le')`: the decoded code points, or `none` when
Python would raise UnicodeDecodeError. -/
def utf16Decode (bs : List Nat) : Option (List Nat) :=
  (utf16Units bs).bind utf16Combine

/-- Code points of the sentinel string `'Error when decoding from UTF-16'`. -/
def utf16ErrorText : List Nat :=
  [69, 114, 114, 111, 114, 32, 119, 104, 101, 110, 32, 100, 101, 99, 111,
   100, 105, 110, 103, 32, 102, 114, 111, 109, 32, 85, 84, 70, 45, 49, 54]

/-- The string filter the analysers apply before storing a recovered
string in a record: `t is not None and t != '' and bytes(t, 'utf-8') != b'\x00'`. -/
def strFilter (t : Option (List Nat)) : Option (List Nat) :=
  match t with
  | some s => if s ≠ [] ∧ s ≠ [0] then some s else none
  | none => none

/-- One memory region: a dump file `<hex_base>_<hex_size>.dmp`.  The dump
directory contract guarantees that the file holds exactly `hex_size`
bytes, so the parsed size equals `data.length`. -/
structure Region where
  base : Nat
  data : List Nat
deriving DecidableEq, Repr

/-- `extract_surroundings(memory_data_path, address, above, below)`:
walk the dump files in directory order; in a region containing `address`,
return the mmap slice `[address-above, address+below)` when
`address - above >= base` and `address + below < base + size`, otherwise
keep scanning; `None` when no region yields a window. -/
def extract_surroundings : List Region → Nat → Nat → Nat → Option (List Nat)
  | [], _, _, _ => none
  | r :: rs, a, ab, bl =>
    if r.base ≤ a ∧ a < r.base + r.data.length then
      if r.base + ab ≤ a ∧ a + bl < r.base + r.data.length then
        some ((r.data.drop (a - r.base - ab)).take (ab + bl))
      else extract_surroundings rs a ab bl
    else extract_surroundings rs a ab bl

/-- Header test of the lax (`less_strict`) QString-contents regex at
position `p`: 16 arbitrary bytes, then the `0x18` tag byte, then 7 zero
bytes. -/
def laxHeaderAt (data : List Nat) (p : Nat) : Bool :=
  decide ((data.get? (p + 16) = some 0x18) ∧ (data.get? (p + 17) = some 0) ∧
    (data.get? (p + 18) = some 0) ∧ (data.get? (p + 19) = some 0) ∧
    (data.get? (p + 20) = some 0) ∧ (data.get? (p + 21) = some 0) ∧
    (data.get? (p + 22) = some 0) ∧ (data.get? (p + 23) = some 0))

/-- First position `j' >= j` with two zero bytes at `j'` and `j'+1`
(the non-greedy terminator search of the lax regex). -/
def findDoubleZeroAux (data : List Nat) : Nat → Nat → Option Nat
  | 0, _ => none
  | fuel + 1, j =>
    if j + 2 ≤ data.length then
      if data.get? j = some 0 ∧ data.get? (j + 1) = some 0 then some j
      else findDoubleZeroAux data fuel (j + 1)
    else none

/-- Entry point for the terminator search from position `j`. -/
def findDoubleZeroFrom (data : List Nat) (j : Nat) : Option Nat :=
  findDoubleZeroAux data (data.length + 1) j

/-- Length of the lax-pattern match anchored at position `p`, when one
exists: the non-greedy `[\x00-\xff]*?` takes the earliest double-zero
terminator at or after `p + 24`. -/
def laxMatchAt (data : List Nat) (p : Nat) : Option Nat :=
  if laxHeaderAt data p then
    match findDoubleZeroFrom data (p + 24) with
    | some j => some (j + 2 - p)
    | none => none
  else none

/-- Leftmost-match search loop of `pattern.search(mmap, start)`. -/
def laxSearchAux (data : List Nat) : Nat → Nat → Option (Nat × Nat)
  | 0, _ => none
  | fuel + 1, p =>
    match laxMatchAt data p with
    | some len => some (p, len)
    | none => laxSearchAux data fuel (p + 1)

/-- `qstring_contents_patterns['less_strict'].search(mmap, start)`:
the leftmost match position at or after `start` together with the
matched length. -/
def laxSearchFrom (data : List Nat) (start : Nat) : Option (Nat × Nat) :=
  laxSearchAux data (data.length + 1 - start) start

/-- `is_address_of_qstring_contents(address)`: walk the dump files; in a
region containing the address, report true exactly when the lax pattern
match starts at the address's offset; otherwise keep scanning. -/
def is_address_of_qstring_contents : List Region → Nat → Bool
  | [], _ => false
  | r :: rs, a =>
    if r.base ≤ a ∧ a < r.base + r.data.length then
      match laxSearchFrom r.data (a - r.base) with
      | some (p, _) =>
        if p = a - r.base then true else is_address_of_qstring_contents rs a
      | none => is_address_of_qstring_contents rs a
    else is_address_of_qstring_contents rs a

/-- Decoding of one lax-pattern match, as `extract_qstring_text` performs
it on the matched bytes: the signed 32-bit length at offset 4 selects
`match[24 : 24 + 2*n]` (Python slice semantics), decoded as UTF-16LE,
with the sentinel string on a decode failure. -/
def qstringTextOfMatch (content : List Nat) : List Nat :=
  let n := int32LE (pySliceN content 4 8)
  let raw := pySlice content 24 (24 + 2 * n)
  match utf16Decode raw with
  | some s => s
  | none => utf16ErrorText

/-- `extract_qstring_text(address)`: walk the dump files; in a region
containing the address, decode the first lax-pattern match at or after
the address's offset; `None` when no region yields a match. -/
def extract_qstring_text : List Region → Nat → Option (List Nat)
  | [], _ => none
  | r :: rs, a =>
    if r.base ≤ a ∧ a < r.base + r.data.length then
      match laxSearchFrom r.data (a - r.base) with
      | some (p, len) => some (qstringTextOfMatch ((r.data.drop p).take len))
      | none => extract_qstring_text rs a
    else extract_qstring_text rs a

/-- The extractor's `user_offsets` table, verbatim from
`TelegramDesktopArtifactExtractor.__init__` (`bytes_above_phone` is
`35 * 16 = 560`). -/
def user_offsets : List (String × Nat) :=
  [("firstname", 384), ("lastname", 392), ("username", 400), ("is_bot", 480),
   ("phone", 560), ("is_contact", 568), ("bytes_above_phone", 560),
   ("bytes_below_phone", 16)]

/-- The extractor's `peer_offsets` table, verbatim. -/
def peer_offsets : List (String × Nat) :=
  [("id", 8), ("name", 16), ("data_session", 48), ("is_blocked", 352)]

/-- Python dictionary subscription `d[k]`: the stored value, or KeyError. -/
def dictGet (d : List (String × Nat)) (k : String) : Except PyErr Nat :=
  match d.find? (fun p => p.1 = k) with
  | some p => Except.ok p.2
  | none => Except.error (PyErr.keyError k)

/-- `user_subpattern_size = bytes_above_phone + bytes_below_phone`. -/
def user_subpattern_size : Nat := 560 + 16

/-- `is_raw_user(address)`: the five QString-pointer offsets it checks are
`peer_offsets['name']` and `user_offsets['firstname'/'lastname'/
'username'/'phone']`, i.e. 16, 384, 392, 400, 560; each 8-byte word
there must point at QString contents, and any failed read is fatal to
the candidate. -/
def is_raw_user (R : List Region) (a : Nat) : Bool :=
  [16, 384, 392, 400, 560].all (fun off =>
    match extract_surroundings R (a + off) 0 8 with
    | some bs => is_address_of_qstring_contents R (leVal bs)
    | none => false)

/-- Record produced by `analyze_user`: a dictionary of optional fields
(`none` = key absent). -/
structure UserDict where
  name : Option (List Nat) := none
  strings : Option (List (List Nat)) := none
  is_contact : Option Bool := none
  id : Option Nat := none
  is_bot : Option Bool := none
  is_blocked : Option Bool := none
deriving DecidableEq, Repr

/-- Record produced by `analyze_conversation`. -/
structure ConvDict where
  name : Option (List Nat) := none
  id : Option Nat := none
  ctype : Option String := none
deriving DecidableEq, Repr

/-- Record produced by `analyze_message_attachment`.  The `latitude` and
`longitude` fields keep the raw 64-bit little-endian bit patterns of the
unpacked doubles. -/
structure AttachDict where
  filename : Option (List Nat) := none
  filetype : Option (List Nat) := none
  firstname : Option (List Nat) := none
  lastname : Option (List Nat) := none
  phone_number : Option (List Nat) := none
  latitude : Option Nat := none
  longitude : Option Nat := none
  title : Option (List Nat) := none
  description : Option (List Nat) := none
  attachment_type : Option String := none
deriving DecidableEq, Repr

/-- The `sender` value of a message record is either a user record or a
conversation record, depending on which analyser produced it. -/
inductive SenderDict where
  | user (u : UserDict)
  | conv (c : ConvDict)
deriving DecidableEq, Repr

/-- Record produced by `analyze_message`.  The `text` key can in
principle be present with value `None` (the code stores the
`extract_qstring_text` result unconditionally once the pointer target is
recognised), hence the nested option. -/
structure MsgDict where
  text : Option (Option (List Nat)) := none
  date : Option Nat := none
  sender : Option SenderDict := none
  conversation : Option ConvDict := none
  attachment : Option AttachDict := none
deriving DecidableEq, Repr

/-- Loop body of `analyze_user`: for each offset, read the 8-byte pointer
from the window, and when its target is QString contents append the
decoded string, subject to the non-empty / non-NUL filter. -/
def userStringsLoop (R : List Region) (raw : List Nat) :
    List Nat → Except PyErr (List (List Nat))
  | [] => Except.ok []
  | off :: rest => do
    let a ← leInt (pySliceN raw off (off + 8))
    let tail ← userStringsLoop R raw rest
    if is_address_of_qstring_contents R a then
      match strFilter (extract_qstring_text R a) with
      | some t => Except.ok (t :: tail)
      | none => Except.ok tail
    else Except.ok tail

/-- `TelegramDesktopArtifactAnalyzer.analyze_user(raw_data)`.  The offset
list is built by subscripting `user_offsets` with the keys `'name'`,
`'firstname'`, `'lastname'`, `'username'`, `'phone'`; the `'id'` and
`'is_blocked'` subscriptions below likewise target `user_offsets`. -/
def analyze_user (R : List Region) (raw : List Nat) : Except PyErr UserDict := do
  let offName ← dictGet user_offsets "name"
  let offFirstname ← dictGet user_offsets "firstname"
  let offLastname ← dictGet user_offsets "lastname"
  let offUsername ← dictGet user_offsets "username"
  let offPhone ← dictGet user_offsets "phone"
  let strs ← userStringsLoop R raw [offName, offFirstname, offLastname, offUsername, offPhone]
  let nameAndRest ← (match strs with
    | [] => Except.error PyErr.indexError
    | n :: r => Except.ok (n, r))
  let offIsContact ← dictGet user_offsets "is_contact"
  let icBytes := pySliceN raw offIsContact (offIsContact + 1)
  let isContact : Option Bool :=
    if icBytes = [1] then some true else if icBytes = [2] then some false else none
  let offId ← dictGet user_offsets "id"
  let uid ← leInt (pySliceN raw offId (offId + 8))
  let offIsBot ← dictGet user_offsets "is_bot"
  let isBot := pySliceN raw offIsBot (offIsBot + 8) ≠ List.replicate 8 0
  let offIsBlocked ← dictGet user_offsets "is_blocked"
  let ibBytes := pySliceN raw offIsBlocked (offIsBlocked + 1)
  let isBlocked : Option Bool :=
    if ibBytes = [1] then some true else if ibBytes = [2] then some false else none
  Except.ok { name := some nameAndRest.1, strings := some nameAndRest.2,
              is_contact := isContact, id := some uid, is_bot := some isBot,
              is_blocked := isBlocked }

/-- `analyze_conversation(raw_data)`: name QString at offset 16 (filtered),
id at offset 8, type from `id & 0xF00000000`. -/
def analyze_conversation (R : List Region) (raw : List Nat) :
    Except PyErr ConvDict := do
  let nameAddr ← leInt (pySliceN raw 16 24)
  let nameField := strFilter (extract_qstring_text R nameAddr)
  let pid ← leInt (pySliceN raw 8 16)
  let ty :=
    if pid &&& 0xF00000000 = 0x000000000 then "Individual conversation"
    else if pid &&& 0xF00000000 = 0x100000000 then "Group"
    else if pid &&& 0xF00000000 = 0x200000000 then "Channel"
    else "Unknown"
  Except.ok { name := nameField, id := some pid, ctype := some ty }

/-- `is_peerdata_address(address)`: 24 readable bytes whose word at
offset 16 points at QString contents. -/
def is_peerdata_address (R : List Region) (a : Nat) : Bool :=
  match extract_surroundings R a 0 24 with
  | some w => is_address_of_qstring_contents R (leVal (pySliceN w 16 24))
  | none => false

/-- `is_documentdata_address(address)`: the words at offsets
`file_offsets['filename'] = 80` and `file_offsets['filetype'] = 88`
must point at QString contents; a failed read is fatal. -/
def is_documentdata_address (R : List Region) (a : Nat) : Bool :=
  [80, 88].all (fun off =>
    match extract_surroundings R (a + off) 0 8 with
    | some bs => is_address_of_qstring_contents R (leVal bs)
    | none => false)

/-- `is_media_contact(raw_contact)`: the words at the
`shared_contact_offsets` 24, 32, 40 of the buffer must all point at
QString contents.  Subscripting an empty slice raises ValueError inside
the hex-to-int conversion, hence the `Except`. -/
def is_media_contact (R : List Region) (raw : List Nat) : Except PyErr Bool := do
  let a1 ← leInt (pySliceN raw 24 32)
  if ¬ is_address_of_qstring_contents R a1 then Except.ok false
  else do
    let a2 ← leInt (pySliceN raw 32 40)
    if ¬ is_address_of_qstring_contents R a2 then Except.ok false
    else do
      let a3 ← leInt (pySliceN raw 40 48)
      Except.ok (is_address_of_qstring_contents R a3)

/-- `is_media_location(raw_location)`: the words at the
`media_location_offsets` 48 (`title`) and 56 (`description`) must point
at QString contents. -/
def is_media_location (R : List Region) (raw : List Nat) : Except PyErr Bool := do
  let a1 ← leInt (pySliceN raw 48 56)
  if ¬ is_address_of_qstring_contents R a1 then Except.ok false
  else do
    let a2 ← leInt (pySliceN raw 56 64)
    Except.ok (is_address_of_qstring_contents R a2)

/-- `struct.unpack('!d', bytes.fromhex(...))` on the byte-reversed slice:
struct.error unless exactly 8 bytes; the value is kept as the raw
little-endian bit pattern. -/
def unpackF64 (bs : List Nat) : Except PyErr Nat :=
  if bs.length = 8 then Except.ok (leVal bs) else Except.error PyErr.structError

/-- File branch of `analyze_message_attachment`: MediaFile's DocumentData
pointer at offset 16; on recognition, a 96-byte DocumentData window
yields filtered filename/filetype, and `attachment_type = 'file'`
requires both. -/
def attachFileBranch (R : List Region) (raw : List Nat) :
    Except PyErr AttachDict := do
  let docAddr ← leInt (pySliceN raw 16 24)
  if is_documentdata_address R docAddr then
    match extract_surroundings R docAddr 0 96 with
    | some dw => do
      let fnAddr ← leInt (pySliceN dw 80 88)
      let ad : AttachDict := { filename := strFilter (extract_qstring_text R fnAddr) }
      let ftAddr ← leInt (pySliceN dw 88 96)
      let ad := { ad with filetype := strFilter (extract_qstring_text R ftAddr) }
      if ad.filename.isSome ∧ ad.filetype.isSome then
        Except.ok { ad with attachment_type := some "file" }
      else Except.ok ad
    | none => Except.ok {}
  else Except.ok {}

/-- Shared-contact branch of `analyze_message_attachment`: filtered
firstname/lastname/phone_number; `attachment_type = 'shared_contact'`
requires firstname. -/
def attachContactBranch (R : List Region) (raw : List Nat) (ad : AttachDict) :
    Except PyErr AttachDict := do
  let fnAddr ← leInt (pySliceN raw 24 32)
  let ad := { ad with firstname := strFilter (extract_qstring_text R fnAddr) }
  let lnAddr ← leInt (pySliceN raw 32 40)
  let ad := { ad with lastname := strFilter (extract_qstring_text R lnAddr) }
  let pnAddr ← leInt (pySliceN raw 40 48)
  let ad := { ad with phone_number := strFilter (extract_qstring_text R pnAddr) }
  if ad.firstname.isSome then
    Except.ok { ad with attachment_type := some "shared_contact" }
  else Except.ok ad

/-- Geographic-location branch of `analyze_message_attachment`: raw
doubles at offsets 16/24, filtered title/description;
`attachment_type = 'geographic_location'` requires both coordinates
(always just set). -/
def attachLocationBranch (R : List Region) (raw : List Nat) (ad : AttachDict) :
    Except PyErr AttachDict := do
  let lat ← unpackF64 (pySliceN raw 16 24)
  let ad := { ad with latitude := some lat }
  let lon ← unpackF64 (pySliceN raw 24 32)
  let ad := { ad with longitude := some lon }
  let tAddr ← leInt (pySliceN raw 48 56)
  let ad := { ad with title := strFilter (extract_qstring_text R tAddr) }
  let dAddr ← leInt (pySliceN raw 56 64)
  let ad := { ad with description := strFilter (extract_qstring_text R dAddr) }
  if ad.latitude.isSome ∧ ad.longitude.isSome then
    Except.ok { ad with attachment_type := some "geographic_location" }
  else Except.ok ad

/-- `analyze_message_attachment(raw_data)`: try the three
interpretations in order over the same growing record; a later
`attachment_type` assignment overwrites an earlier one. -/
def analyze_message_attachment (R : List Region) (raw : List Nat) :
    Except PyErr AttachDict := do
  let ad ← attachFileBranch R raw
  let mc ← is_media_contact R raw
  let ad ← if mc then attachContactBranch R raw ad else Except.ok ad
  let ml ← is_media_location R raw
  if ml then attachLocationBranch R raw ad else Except.ok ad

/-- One trailing underscore is stripped from a recovered message text:
`if text is not None and text.endswith('_'): text = text[:-1]`. -/
def stripTrailingUnderscore (t : List Nat) : List Nat :=
  if t.getLast? = some 95 then t.dropLast else t

/-- Sender resolution of `analyze_message`: the `_from` pointer is
analysed as a user when `is_raw_user` holds, else as a conversation when
`is_peerdata_address` holds. -/
def amSenderField (R : List Region) (fromAddr : Nat) :
    Except PyErr (Option SenderDict) :=
  if is_raw_user R fromAddr then
    match extract_surroundings R fromAddr 0 user_subpattern_size with
    | some w => do
      let u ← analyze_user R w
      Except.ok (some (SenderDict.user u))
    | none => Except.ok none
  else if is_peerdata_address R fromAddr then
    match extract_surroundings R fromAddr 0 24 with
    | some w => do
      let c ← analyze_conversation R w
      Except.ok (some (SenderDict.conv c))
    | none => Except.ok none
  else Except.ok none

/-- Conversation resolution of `analyze_message`: the `_history` pointer
yields a `history_offsets['peer'] + 8 = 200` byte window whose word at
offset 192 is the PeerData candidate. -/
def amConvField (R : List Region) (histAddr : Nat) :
    Except PyErr (Option ConvDict) :=
  match extract_surroundings R histAddr 0 200 with
  | some hw => do
    let peerAddr ← leInt (pySliceN hw 192 200)
    if is_peerdata_address R peerAddr then
      match extract_surroundings R peerAddr 0 24 with
      | some pw => do
        let c ← analyze_conversation R pw
        Except.ok (some c)
      | none => Except.ok none
    else Except.ok none
  | none => Except.ok none

/-- Attachment resolution of `analyze_message`: a non-null `_media`
pointer yields a 64-byte Media window; the attachment record is kept
only when it acquired an `attachment_type`. -/
def amAttachField (R : List Region) (raw : List Nat) :
    Except PyErr (Option AttachDict) :=
  if pySliceN raw 120 128 = List.replicate 8 0 then Except.ok none
  else do
    let mAddr ← leInt (pySliceN raw 120 128)
    match extract_surroundings R mAddr 0 64 with
    | some mw => do
      let ad ← analyze_message_attachment R mw
      if ad.attachment_type.isSome then Except.ok (some ad) else Except.ok none
    | none => Except.ok none

/-- `analyze_message(raw_data)`: message offsets text 48, date 128,
from 16, history 8, media 120.  The components are computed in the
Python statement order (so exceptions propagate identically) and the
record is assembled from them. -/
def analyze_message (R : List Region) (raw : List Nat) : Except PyErr MsgDict := do
  let textAddr ← leInt (pySliceN raw 48 56)
  let textField : Option (Option (List Nat)) :=
    if is_address_of_qstring_contents R textAddr then
      some ((extract_qstring_text R textAddr).map stripTrailingUnderscore)
    else none
  let d ← leInt (pySliceN raw 128 132)
  let fromAddr ← leInt (pySliceN raw 16 24)
  let senderField ← amSenderField R fromAddr
  let histAddr ← leInt (pySliceN raw 8 16)
  let convField ← amConvField R histAddr
  let attachField ← amAttachField R raw
  Except.ok { text := textField, date := some d, sender := senderField,
              conversation := convField, attachment := attachField }

/-- `TelegramDesktopUser`: every constructor argument defaults to `None`. -/
structure TDUser where
  user_id : Option Nat := none
  name : Option (List Nat) := none
  is_contact : Option Bool := none
  is_blocked : Option Bool := none
  phone_number : Option (List Nat) := none
  username : Option (List Nat) := none
  about : Option (List Nat) := none
  is_bot : Option Bool := none
deriving DecidableEq, Repr

/-- The attachment artifact classes (`TelegramDesktopFile`,
`TelegramDesktopSharedUser`, `TelegramDesktopGeographicLocation`),
restricted to the fields the factory populates. -/
inductive TDAttachment where
  | file (filename filetype : Option (List Nat))
  | sharedUser (name : Option (List Nat)) (phone_number : Option (List Nat))
  | geographicLocation (latitude longitude : Option Nat)
      (title description : Option (List Nat))
deriving DecidableEq, Repr

/-- `TelegramDesktopMessage`.  `attachments` is `None` until assigned;
the single element the factory stores can itself be the `None` returned
by `create_message_attachment` on an unrecognised type. -/
structure TDMessage where
  message_id : Option Nat := none
  text : Option (List Nat) := none
  date : Option Nat := none
  sender : Option TDUser := none
  attachments : Option (List (Option TDAttachment)) := none
deriving DecidableEq, Repr

/-- Conversation kind, standing in for the Python class of the object
(`TelegramDesktopIndividualConversation` / `...Group` / `...Channel`). -/
inductive CType where
  | individual
  | group
  | channel
deriving DecidableEq, Repr

/-- The conversation artifact classes flattened into one structure with a
kind tag.  The Python `None` defaults of the list-valued attributes are
conflated with `[]`; no embedded code path distinguishes them. -/
structure TDConv where
  ctype : CType
  conversation_id : Option Nat := none
  name : Option (List Nat) := none
  messages : List TDMessage := []
  users : List TDUser := []
  participants : List TDUser := []
  admins : List TDUser := []
  publishers : List TDUser := []
  subscribers : List TDUser := []
deriving DecidableEq, Repr

/-- `TelegramDesktopAccount`; the list-valued `None` defaults are
conflated with `[]` as for conversations. -/
structure TDAccount where
  account_id : Option Nat := none
  owner : Option TDUser := none
  users : List TDUser := []
  conversations : List TDConv := []
deriving DecidableEq, Repr

/-- Body of `is_user_repeated` once the `new_user.user_id` attribute
access has succeeded: some stored user has the same non-null id. -/
def is_user_repeated_some (users : List TDUser) (nu : TDUser) : Bool :=
  match nu.user_id with
  | none => false
  | some i => users.any (fun u => u.user_id = some i)

/-- `is_user_repeated(users, new_user)`: reading `new_user.user_id`
raises AttributeError when `new_user` is `None`. -/
def is_user_repeated (users : List TDUser) (nu : Option TDUser) :
    Except PyErr Bool :=
  match nu with
  | none => Except.error PyErr.attributeError
  | some u => Except.ok (is_user_repeated_some users u)

/-- `str.isdigit()` restricted to ASCII digits; no embedded code path
depends on the wider Unicode digit categories Python also accepts. -/
def pyIsDigit (t : List Nat) : Bool :=
  ¬ t.isEmpty ∧ t.all (fun c => 48 ≤ c ∧ c ≤ 57)

/-- `TelegramDesktopFactory.create_user(dictionary)`: requires `name`;
drops the name (or the two name halves joined by a space) from the
`strings` list, then reads username/phone from what remains. -/
def create_user (d : UserDict) : Option TDUser :=
  match d.name with
  | none => none
  | some nm =>
    let u0 : TDUser :=
      { name := some nm, is_contact := d.is_contact, user_id := d.id,
        is_bot := d.is_bot, is_blocked := d.is_blocked }
    match d.strings with
    | none => some u0
    | some strs =>
      let strs2 :=
        match strs with
        | s0 :: s1 :: rest =>
          if s0 ++ [32] ++ s1 = nm then rest
          else if s0 = nm then s1 :: rest
          else strs
        | [s0] => if s0 = nm then [] else [s0]
        | [] => []
      match strs2 with
      | [a, b] => some { u0 with username := some a, phone_number := some b }
      | [a] =>
        if pyIsDigit a then some { u0 with phone_number := some a }
        else some { u0 with username := some a }
      | _ => some u0

/-- `create_message_attachment(dictionary)`: direct subscriptions that
raise KeyError on a missing key; an unmatched `attachment_type` falls
off the end and yields `None`. -/
def create_message_attachment (d : AttachDict) :
    Except PyErr (Option TDAttachment) := do
  let ty ← (match d.attachment_type with
    | some ty => Except.ok ty
    | none => Except.error (PyErr.keyError "attachment_type"))
  if ty = "file" then do
    let fn ← (match d.filename with
      | some fn => Except.ok fn
      | none => Except.error (PyErr.keyError "filename"))
    let ft ← (match d.filetype with
      | some ft => Except.ok ft
      | none => Except.error (PyErr.keyError "filetype"))
    Except.ok (some (TDAttachment.file (some fn) (some ft)))
  else if ty = "shared_contact" then do
    let fn ← (match d.firstname with
      | some fn => Except.ok fn
      | none => Except.error (PyErr.keyError "firstname"))
    let nm := match d.lastname with
      | some ln => fn ++ [32] ++ ln
      | none => fn
    Except.ok (some (TDAttachment.sharedUser (some nm) d.phone_number))
  else if ty = "geographic_location" then do
    let lat ← (match d.latitude with
      | some v => Except.ok v
      | none => Except.error (PyErr.keyError "latitude"))
    let lon ← (match d.longitude with
      | some v => Except.ok v
      | none => Except.error (PyErr.keyError "longitude"))
    Except.ok (some (TDAttachment.geographicLocation (some lat) (some lon)
      d.title d.description))
  else Except.ok none

/-- `create_message(dictionary)`: `None` without a `text` key; a sender
record with a `strings` key goes through `create_user`, any other sender
record is rebuilt from its `id` and `name` subscriptions. -/
def create_message (d : MsgDict) : Except PyErr (Option TDMessage) :=
  match d.text with
  | none => Except.ok none
  | some t => do
    let m0 : TDMessage := { text := t, date := d.date }
    let m1 ← (match d.sender with
      | none => Except.ok m0
      | some (SenderDict.user u) =>
        if u.strings.isSome then
          match create_user u with
          | some su => Except.ok { m0 with sender := some su }
          | none => Except.ok m0
        else do
          let i ← (match u.id with
            | some i => Except.ok i
            | none => Except.error (PyErr.keyError "id"))
          let nm ← (match u.name with
            | some nm => Except.ok nm
            | none => Except.error (PyErr.keyError "name"))
          Except.ok { m0 with sender := some { user_id := some i, name := some nm } }
      | some (SenderDict.conv c) => do
        let i ← (match c.id with
          | some i => Except.ok i
          | none => Except.error (PyErr.keyError "id"))
        let nm ← (match c.name with
          | some nm => Except.ok nm
          | none => Except.error (PyErr.keyError "name"))
        Except.ok { m0 with sender := some { user_id := some i, name := some nm } })
    match d.attachment with
    | none => Except.ok (some m1)
    | some ad => do
      let att ← create_message_attachment ad
      Except.ok (some { m1 with attachments := some [att] })

/-- The `create_message` loop of `create_conversation`: each message
dictionary is converted in order and `None` results are dropped. -/
def createMessagesLoop : List MsgDict → Except PyErr (List TDMessage)
  | [] => Except.ok []
  | d :: rest => do
    let m? ← create_message d
    let tail ← createMessagesLoop rest
    match m? with
    | some m => Except.ok (m :: tail)
    | none => Except.ok tail

/-- Stable insertion of a message into a date-sorted list (earlier
messages with an equal date stay in front on the left). -/
def insertByDate (m : TDMessage) : List TDMessage → List TDMessage
  | [] => [m]
  | x :: xs =>
    if m.date.getD 0 ≤ x.date.getD 0 then m :: x :: xs else x :: insertByDate m xs

/-- Stable ascending sort by date. -/
def sortByDate : List TDMessage → List TDMessage
  | [] => []
  | m :: rest => insertByDate m (sortByDate rest)

/-- `messages.sort(key=lambda x: x.date)`: with two or more messages
every element is compared at least once, so any `None` date raises
TypeError (`None < datetime`); otherwise a stable ascending sort. -/
def sortMessagesByDate (msgs : List TDMessage) :
    Except PyErr (List TDMessage) :=
  if msgs.length ≤ 1 then Except.ok msgs
  else if msgs.all (fun m => m.date.isSome) then Except.ok (sortByDate msgs)
  else Except.error PyErr.typeError

/-- The sender-collection loop of `create_conversation`: senders of the
sorted messages, skipping `None` senders, deduplicated by
`is_user_repeated` (non-null ids only). -/
def collectSenders : List TDMessage → List TDUser → List TDUser
  | [], acc => acc
  | m :: rest, acc =>
    match m.sender with
    | some s =>
      if ¬ is_user_repeated_some acc s then collectSenders rest (acc ++ [s])
      else collectSenders rest acc
    | none => collectSenders rest acc

/-- A conversation dictionary as the organiser shapes it: the analyser
record plus the `messages` key the organiser adds (`none` when the key
was never added). -/
structure ConvFull where
  conv : ConvDict
  messages : Option (List MsgDict) := none
deriving DecidableEq, Repr

/-- The if/elif chain of `create_conversation` that instantiates the
conversation object for a recognised `type` string. -/
def convObjOfType (ty : String) : Option TDConv :=
  if ty = "Individual conversation" then some { ctype := CType.individual }
  else if ty = "Group" then some { ctype := CType.group }
  else if ty = "Channel" then some { ctype := CType.channel }
  else none

/-- `create_conversation(dictionary)`: requires a recognised `type`;
copies id and name; converts, sorts and stores the messages; for
individual conversations and groups also collects the unique senders. -/
def create_conversation (cf : ConvFull) : Except PyErr (Option TDConv) :=
  match cf.conv.ctype with
  | none => Except.ok none
  | some ty =>
    match convObjOfType ty with
    | none => Except.ok none
    | some c0 =>
      let c1 := { c0 with conversation_id := cf.conv.id, name := cf.conv.name }
      match cf.messages with
      | none => Except.ok (some c1)
      | some mds => do
        let msgs ← createMessagesLoop mds
        let sorted ← sortMessagesByDate msgs
        let c2 := { c1 with messages := sorted }
        if ty = "Individual conversation" then
          Except.ok (some { c2 with users := collectSenders sorted [] })
        else if ty = "Group" then
          Except.ok (some { c2 with participants := collectSenders sorted [] })
        else Except.ok (some c2)

/-- The `create_conversation` loop of `create_account`: `None` results
are dropped. -/
def createConvsLoop : List ConvFull → Except PyErr (List TDConv)
  | [] => Except.ok []
  | cf :: rest => do
    let c? ← create_conversation cf
    let tail ← createConvsLoop rest
    match c? with
    | some c => Except.ok (c :: tail)
    | none => Except.ok tail

/-- The `create_user` loop of `create_account`: `None` results dropped. -/
def createUsersLoop : List UserDict → List TDUser
  | [] => []
  | d :: rest =>
    match create_user d with
    | some u => u :: createUsersLoop rest
    | none => createUsersLoop rest

/-- Inner sender-merging loop of `create_account`: for each message of a
conversation, `is_user_repeated(users, message.sender)` is evaluated
first (AttributeError when the sender is `None`), and a non-repeated
sender is appended. -/
def accountSendersOfMessages : List TDMessage → List TDUser →
    Except PyErr (List TDUser)
  | [], us => Except.ok us
  | m :: rest, us => do
    let b ← is_user_repeated us m.sender
    accountSendersOfMessages rest (if b then us else us ++ m.sender.toList)

/-- Outer sender-merging loop of `create_account` over conversations. -/
def accountSendersOfConvs : List TDConv → List TDUser →
    Except PyErr (List TDUser)
  | [], us => Except.ok us
  | c :: rest, us => do
    let us2 ← accountSendersOfMessages c.messages us
    accountSendersOfConvs rest us2

/-- Account dictionary as the organiser provides it. -/
structure AccountDict where
  users : Option (List UserDict) := none
  owner : Option UserDict := none
  conversations : Option (List ConvFull) := none
deriving DecidableEq, Repr

/-- `TelegramDesktopFactory.create_account(dictionary)`: `None` without
`users`; converts users, the optional owner and (when present) the
conversations; then merges every message sender into the user list with
the repetition check; `account.users` is only assigned inside the
`conversations` branch. -/
def create_account (d : AccountDict) : Except PyErr (Option TDAccount) :=
  match d.users with
  | none => Except.ok none
  | some uds => do
    let users := createUsersLoop uds
    let acc0 : TDAccount := {}
    let acc1 := match d.owner with
      | some od =>
        (match create_user od with
         | some ow => { acc0 with owner := some ow }
         | none => acc0)
      | none => acc0
    match d.conversations with
    | none => Except.ok (some acc1)
    | some cfs => do
      let convs ← createConvsLoop cfs
      let acc2 := { acc1 with conversations := convs }
      let users2 ← accountSendersOfConvs convs users
      Except.ok (some { acc2 with users := users2 })

/-- `is_conversation_repeated(conversations, conversation_data)`: some
already-collected conversation has the same present id. -/
def is_conversation_repeated (convs : List ConvFull) (cd : ConvDict) : Bool :=
  match cd.id with
  | some i => convs.any (fun c => c.conv.id = some i)
  | none => false

/-- First organiser pass: collect each distinct message conversation,
initialising its `messages` key to the empty list. -/
def obcCollectConvs : List MsgDict → List ConvFull → List ConvFull
  | [], cs => cs
  | md :: rest, cs =>
    match md.conversation with
    | some cd =>
      if is_conversation_repeated cs cd then obcCollectConvs rest cs
      else obcCollectConvs rest (cs ++ [{ conv := cd, messages := some [] }])
    | none => obcCollectConvs rest cs

/-- `insert_message_in_right_conversation(conversations, message_data)`:
direct `conversation['id']`, `message_data['conversation']['id']` and
`conversation['messages']` subscriptions (KeyError on a missing key);
the message is appended to every conversation with a matching id. -/
def insert_message_in_right_conversation (convs : List ConvFull)
    (md : MsgDict) : Except PyErr (List ConvFull) :=
  match convs with
  | [] => Except.ok []
  | c :: rest => do
    let ci ← (match c.conv.id with
      | some i => Except.ok i
      | none => Except.error (PyErr.keyError "id"))
    let mi ← (match md.conversation with
      | some cd =>
        (match cd.id with
         | some i => Except.ok i
         | none => Except.error (PyErr.keyError "id"))
      | none => Except.error (PyErr.keyError "conversation"))
    if ci = mi then
      match c.messages with
      | some l => do
        let rest2 ← insert_message_in_right_conversation rest md
        Except.ok ({ c with messages := some (l ++ [md]) } :: rest2)
      | none => Except.error (PyErr.keyError "messages")
    else do
      let rest2 ← insert_message_in_right_conversation rest md
      Except.ok (c :: rest2)

/-- Second organiser pass: place each message carrying a conversation id
into the matching conversations. -/
def obcPlaceMessages : List MsgDict → List ConvFull →
    Except PyErr (List ConvFull)
  | [], cs => Except.ok cs
  | md :: rest, cs =>
    match md.conversation with
    | some cd =>
      if cd.id.isSome then do
        let cs2 ← insert_message_in_right_conversation cs md
        obcPlaceMessages rest cs2
      else obcPlaceMessages rest cs
    | none => obcPlaceMessages rest cs

/-- `TelegramDesktopArtifactOrganizer.organize_before_creation`: the
conversations argument is discarded and rebuilt from the messages; the
single supported account carries the user records untouched.  (In
Python the conversation dictionaries are shared with the message
dictionaries that reference them; the factory never reads a message's
`conversation` key, so the tree-shaped copy is observationally
equivalent.) -/
def organize_before_creation (_accounts : List AccountDict)
    (users : List UserDict) (_conversations : List ConvFull)
    (messages : List MsgDict) (_attachments : List AttachDict) :
    Except PyErr (List AccountDict) := do
  let convs := obcCollectConvs messages []
  let convs2 ← obcPlaceMessages messages convs
  Except.ok [{ users := some users, conversations := some convs2 }]

/-- `find_repeated_users` loop: `unique_users` and `repeated_users`
accumulators, repetition judged by `is_user_repeated` (non-null ids). -/
def findRepeatedAux : List TDUser → List TDUser → List TDUser → List TDUser
  | [], _, rep => rep
  | u :: rest, uniq, rep =>
    if ¬ is_user_repeated_some uniq u then findRepeatedAux rest (uniq ++ [u]) rep
    else if is_user_repeated_some uniq u ∧ ¬ is_user_repeated_some rep u then
      findRepeatedAux rest uniq (rep ++ [u])
    else findRepeatedAux rest uniq rep

/-- `find_repeated_users(users)`. -/
def find_repeated_users (users : List TDUser) : List TDUser :=
  findRepeatedAux users [] []

/-- The individual conversations of all accounts, in account order
(`isinstance(conversation, TelegramDesktopIndividualConversation)`). -/
def individualConvs : List TDAccount → List TDConv
  | [] => []
  | a :: rest =>
    a.conversations.filter (fun c => decide (c.ctype = CType.individual)) ++
      individualConvs rest

/-- Non-contact collection of the multi-conversation owner inference:
from each individual conversation with exactly two users both
non-contacts are taken, from one with exactly one user that user. -/
def collectNonContacts : List TDConv → List TDUser
  | [] => []
  | c :: rest =>
    (match c.users with
     | [u1, u2] =>
       (if u1.is_contact = some false then [u1] else []) ++
         (if u2.is_contact = some false then [u2] else [])
     | [u1] => if u1.is_contact = some false then [u1] else []
     | _ => []) ++ collectNonContacts rest

/-- `accounts[0].owner = u` (guarded by `len(accounts) == 1` at every
call site). -/
def setHeadOwner (accounts : List TDAccount) (u : TDUser) : List TDAccount :=
  match accounts with
  | [] => []
  | a :: rest => { a with owner := some u } :: rest

/-- `TelegramDesktopArtifactOrganizer.organize_after_creation`: with a
single individual conversation of two users, the one whose `is_contact`
is literally `False` (the other being literally `True`) becomes the
owner; with several, the unique repeated non-contact does. -/
def organize_after_creation (accounts : List TDAccount) : List TDAccount :=
  match individualConvs accounts with
  | [c] =>
    (match c.users with
     | [fu, su] =>
       if fu.is_contact = some false ∧ su.is_contact = some true ∧
           accounts.length = 1 then
         setHeadOwner accounts fu
       else if fu.is_contact = some true ∧ su.is_contact = some false ∧
           accounts.length = 1 then
         setHeadOwner accounts su
       else accounts
     | _ => accounts)
  | [] => accounts
  | ics =>
    let owners := find_repeated_users (collectNonContacts ics)
    if owners.length = 1 ∧ accounts.length = 1 then
      match owners with
      | [u] => setHeadOwner accounts u
      | _ => accounts
    else accounts

/-- `qstringTextSpec` follows the words of the specification's QString
self-consistency property (for comparison against the code's
`extract_qstring_text`): read the unsigned 32-bit character count `N` at
header offset 4 and decode the `2*N` bytes at offset 24 as UTF-16LE. -/
def qstringTextSpec (R : List Region) (a : Nat) : Option (List Nat) :=
  match extract_surroundings R (a + 4) 0 4 with
  | some nb =>
    match extract_surroundings R (a + 24) 0 (2 * leVal nb) with
    | some ub => utf16Decode ub
    | none => none
  | none => none

/-- Two regions occupy disjoint address ranges (the dump set tiles a
sparse address space without overlaps). -/
def regionsSeparate (r s : Region) : Prop :=
  r.base + r.data.length ≤ s.base ∨ s.base + s.data.length ≤ r.base

/-- A minimal valid QString-contents block holding the empty string:
an all-zero 16-byte header (character count 0), the `0x18` tag, seven
zero bytes and the double-zero terminator. -/
def qblock : List Nat :=
  List.replicate 16 0 ++ [0x18] ++ List.replicate 7 0 ++ [0, 0]

/-- A region holding five empty QString-contents blocks back to back, at
addresses 0x2000, 0x201A, 0x2034, 0x204E, 0x2068. -/
def qRegion : Region := ⟨0x2000, qblock ++ qblock ++ qblock ++ qblock ++ qblock⟩

/-- A 576-byte `UserData` window whose five QString pointers (peer name
at 16, firstname at 384, lastname at 392, username at 400, phone at 560)
target the five blocks of `qRegion`, and whose first word is zero. -/
def userRegionData : List Nat :=
  List.replicate 16 0 ++ leBytes8 0x2000 ++ List.replicate 360 0 ++
  leBytes8 0x201A ++ leBytes8 0x2034 ++ leBytes8 0x204E ++
  List.replicate 152 0 ++ leBytes8 0x2068 ++ List.replicate 8 0

/-- The region at 0x1000 holding the valid user window. -/
def userRegion : Region := ⟨0x1000, userRegionData⟩

/-- The specification's scenario-1 block: a QString contents block with
character count 5 and UTF-16LE text `Hello`. -/
def helloBlock : List Nat :=
  [1, 0, 0, 0, 5, 0, 0, 0, 0, 0, 0, 0x80, 0, 0, 0, 0] ++
  [0x18, 0, 0, 0, 0, 0, 0, 0] ++
  [72, 0, 101, 0, 108, 0, 108, 0, 111, 0] ++ [0, 0]

/-- Region for the scenario-1 block. -/
def helloRegion : Region := ⟨0x10000, helloBlock⟩

/-- A QString-contents block whose header says 2 characters but whose
text bytes are `41 00 00 00`: the non-greedy terminator stops after one
character's bytes, so the matched slice holds an odd number of text
bytes and decoding fails with the sentinel, while the spec-side decode
of the 2 code units at offset 24 succeeds. -/
def c3block : List Nat :=
  [0, 0, 0, 0, 2, 0, 0, 0, 0, 0, 0, 0, 0, 0, 0, 0] ++
  [0x18, 0, 0, 0, 0, 0, 0, 0] ++ [0x41, 0, 0, 0] ++ [0, 0, 0, 0]

/-- Region for the early-terminator block. -/
def c3Region : Region := ⟨0x3000, c3block⟩

/-- A QString-contents block with character count 2 and text `Hi`. -/
def hiBlock : List Nat :=
  [0, 0, 0, 0, 2, 0, 0, 0, 0, 0, 0, 0, 0, 0, 0, 0] ++
  [0x18, 0, 0, 0, 0, 0, 0, 0] ++ [72, 0, 105, 0] ++ [0, 0]

/-- Region for the `Hi` block. -/
def hiRegion : Region := ⟨0x4000, hiBlock⟩

/-- A 24-byte PeerData window with id 7 and name pointer 0x4000. -/
def convWin : List Nat :=
  List.replicate 8 0 ++ [7, 0, 0, 0, 0, 0, 0, 0] ++ leBytes8 0x4000

/-- A 176-byte `HistoryMessage` window whose text pointer (offset 48)
targets the empty QString block at 0x2000 and whose date (offset 128)
is 1; every other pointer is null. -/
def c6win : List Nat :=
  List.replicate 48 0 ++ leBytes8 0x2000 ++ List.replicate 72 0 ++
  [1, 0, 0, 0] ++ List.replicate 44 0

/-- The record `analyze_message` produces on `c6win`: the empty string
is stored in the `text` field. -/
def c6MsgDict : MsgDict := { text := some (some []), date := some 1 }

deriving instance DecidableEq for Except

/-- The conversation record of the C2 failing message. -/
def claim2Conv : ConvDict := { id := some 1, ctype := some "Individual conversation" }

/-- A fully analysed message record whose sender was not recovered:
text `'hi'`, a date, a conversation, no `sender` key. -/
def claim2Msg : MsgDict :=
  { text := some (some [104, 105]), date := some 100, conversation := some claim2Conv }

/-- The account dictionary the organiser builds from that single message. -/
def claim2Account : AccountDict :=
  { users := some [], conversations := some [{ conv := claim2Conv, messages := some [claim2Msg] }] }

/-- All string fields of an attachment record respect the filter. -/
def adStrInv (ad : AttachDict) : Prop :=
  ∀ t, (ad.filename = some t ∨ ad.filetype = some t ∨ ad.firstname = some t ∨
        ad.lastname = some t ∨ ad.phone_number = some t ∨ ad.title = some t ∨
        ad.description = some t) → t ≠ [] ∧ t ≠ [0]

/-- The conversation record recovered from `convWin` over `hiRegion`. -/
def c6ConvDict : ConvDict :=
  { name := some [72, 105], id := some 7, ctype := some "Individual conversation" }

/-- An analysed user record with id 5 and name `A`. -/
def c7uA : UserDict := { name := some [65], strings := some [], id := some 5 }

/-- A second analysed user record with the same id 5 and name `B`. -/
def c7uB : UserDict := { name := some [66], strings := some [], id := some 5 }

/-- The account dictionary the organiser builds from those two records. -/
def c7AcctDict : AccountDict := { users := some [c7uA, c7uB], conversations := some [] }

/-- The account the factory produces: both users, ids not deduplicated. -/
def c7Account : TDAccount :=
  { users := [{ user_id := some 5, name := some [65] },
              { user_id := some 5, name := some [66] }] }

/-- Analysed user record for the C7 witness. -/
def c7wUser : UserDict := { name := some [65], strings := some [], id := some 9 }

/-- Analysed message record for the C7 witness: text, date, sender and a
conversation with id 1. -/
def c7wMsg : MsgDict :=
  { text := some (some [104]), date := some 5,
    sender := some (SenderDict.user c7wUser), conversation := some claim2Conv }

/-- The sender object the factory builds from `c7wUser`. -/
def c7wSender : TDUser := { user_id := some 9, name := some [65] }

/-- The message object built from `c7wMsg`. -/
def c7wM : TDMessage :=
  { text := some [104], date := some 5, sender := some c7wSender }

/-- The conversation object of the C7 witness account. -/
def c7wConv : TDConv :=
  { ctype := CType.individual, conversation_id := some 1, messages := [c7wM],
    users := [c7wSender] }

/-- The account dictionary of the C7 witness pipeline. -/
def c7wAcctDict : AccountDict :=
  { users := some [],
    conversations := some [{ conv := claim2Conv, messages := some [c7wMsg] }] }

/-- The account object of the C7 witness pipeline. -/
def c7wAccount : TDAccount := { users := [c7wSender], conversations := [c7wConv] }

/-- The non-contact user of the C8 witness. -/
def c8uF : TDUser := { user_id := some 1, is_contact := some false }

/-- The contact user of the C8 witness. -/
def c8uT : TDUser := { user_id := some 2, is_contact := some true }

/-- The single individual conversation of the C8 witness. -/
def c8conv : TDConv := { ctype := CType.individual, users := [c8uF, c8uT] }

/-- The C8 witness account, owner initially unset. -/
def c8acc : TDAccount := { conversations := [c8conv] }

/-- Inversion of a successful `Except` bind. -/
theorem exceptBind_ok {α β : Type} {e : Except PyErr α} {f : α → Except PyErr β}
    {b : β} : e >>= f = Except.ok b ↔ ∃ a, e = Except.ok a ∧ f a = Except.ok b := by
  cases e with
  | error err => simp [Bind.bind, Except.bind]
  | ok a => simp [Bind.bind, Except.bind]

/-- A string that survives the analyser filter is non-empty and is not
the single NUL. -/
theorem strFilter_some {x : Option (List Nat)} {t : List Nat}
    (h : strFilter x = some t) : t ≠ [] ∧ t ≠ [0] := by
  cases x with
  | none => simp [strFilter] at h
  | some s =>
    by_cases hs : s ≠ [] ∧ s ≠ [0]
    · simp [strFilter, hs] at h
      exact h ▸ hs
    · simp [strFilter, hs] at h

/-- Claim C1 (code bug): `analyze_user` raises `KeyError('name')` on
every input, because it subscripts `user_offsets` — which holds no
`'name'` key (nor `'id'` nor `'is_blocked'`; those live in
`peer_offsets`) — before touching the window, so it never returns a
record at all. -/
theorem claim1_analyze_user_raises_keyerror (R : List Region) (raw : List Nat) :
    analyze_user R raw = Except.error (PyErr.keyError "name") := rfl

/-- Claim C2 (code bug): organising a sender-less message succeeds, but
`create_account` then evaluates `is_user_repeated(users, message.sender)`
with `message.sender = None` and the `new_user.user_id` attribute access
raises AttributeError: no account is produced. -/
theorem claim2_create_account_attribute_error :
    organize_before_creation [] [] [] [claim2Msg] [] = Except.ok [claim2Account] ∧
    create_account claim2Account = Except.error PyErr.attributeError := by
  constructor <;> rfl

/-- One step of `extract_surroundings` collapses to a single test: the
inner bound test implies the containment test. -/
theorem extract_surroundings_cons (r : Region) (rs : List Region)
    (a ab bl : Nat) :
    extract_surroundings (r :: rs) a ab bl =
      if r.base + ab ≤ a ∧ a + bl < r.base + r.data.length then
        some ((r.data.drop (a - r.base - ab)).take (ab + bl))
      else extract_surroundings rs a ab bl := by
  by_cases h2 : r.base + ab ≤ a ∧ a + bl < r.base + r.data.length
  · have h1 : r.base ≤ a ∧ a < r.base + r.data.length := by omega
    simp [extract_surroundings, h1, h2]
  · by_cases h1 : r.base ≤ a ∧ a < r.base + r.data.length <;>
      simp [extract_surroundings, h1, h2]

/-- Claim C4 (amended): `extract_surroundings` returns a window exactly
when some region satisfies `base + above <= address` and
`address + below < base + size` — strictly below the region end — and
the window is then the `above + below` bytes of `[address-above,
address+below)`; in particular a window ending exactly at a region
boundary yields absent. -/
theorem claim4_extract_surroundings_characterization (R : List Region)
    (a ab bl : Nat) :
    ((extract_surroundings R a ab bl = none) ↔
      ∀ r ∈ R, ¬(r.base + ab ≤ a ∧ a + bl < r.base + r.data.length)) ∧
    (∀ w, extract_surroundings R a ab bl = some w →
      w.length = ab + bl ∧
      ∃ r ∈ R, (r.base + ab ≤ a ∧ a + bl < r.base + r.data.length) ∧
        w = (r.data.drop (a - r.base - ab)).take (ab + bl)) := by
  induction R with
  | nil =>
    constructor
    · simp [extract_surroundings]
    · intro w h
      simp [extract_surroundings] at h
  | cons r rs ih =>
    rw [extract_surroundings_cons]
    by_cases h2 : r.base + ab ≤ a ∧ a + bl < r.base + r.data.length
    · simp only [h2, if_pos]
      constructor
      · simp only [List.mem_cons]
        constructor
        · intro h; cases h
        · intro h
          exact absurd h2 (h r (Or.inl rfl))
      · intro w hw
        have hww : w = (r.data.drop (a - r.base - ab)).take (ab + bl) :=
          (Option.some.injEq _ _).mp hw.symm
        constructor
        · rw [hww, List.length_take, List.length_drop]
          omega
        · exact ⟨r, List.mem_cons_self r rs, h2, hww⟩
    · simp only [h2, if_neg, not_false_iff]
      constructor
      · rw [ih.1]
        constructor
        · intro h s hs
          rcases List.mem_cons.mp hs with rfl | hs'
          · exact h2
          · exact h s hs'
        · intro h s hs
          exact h s (List.mem_cons_of_mem r hs)
      · intro w hw
        obtain ⟨hlen, s, hs, hcond, hsl⟩ := ih.2 w hw
        exact ⟨hlen, s, List.mem_cons_of_mem r hs, hcond, hsl⟩

/-- Claim C4 counterexample: a window that lies entirely inside a region
but ends exactly at its boundary — `[2, 4)` inside the region `[0, 4)` —
is rejected: the code demands `address + below < base + size` strictly,
so the claimed "absent exactly on boundary crossing" fails. -/
theorem claim4_counterexample :
    (0 : Nat) + 4 ≤ (Region.mk 0 [9, 9, 9, 9]).base +
      (Region.mk 0 [9, 9, 9, 9]).data.length ∧
    (Region.mk 0 [9, 9, 9, 9]).base ≤ 2 - 0 ∧
    extract_surroundings [Region.mk 0 [9, 9, 9, 9]] 2 0 2 = none := by decide

/-- Witness for the C4 characterisation at a concrete in-bounds window. -/
theorem claim4_witness :
    ([8, 7] : List Nat).length = 1 + 1 ∧
    ∃ r ∈ [Region.mk 0 [9, 8, 7, 6]],
      (r.base + 1 ≤ 2 ∧ 2 + 1 < r.base + r.data.length) ∧
      ([8, 7] : List Nat) = (r.data.drop (2 - r.base - 1)).take (1 + 1) :=
  (claim4_extract_surroundings_characterization [Region.mk 0 [9, 8, 7, 6]] 2 1 1).2
    [8, 7] (by decide)

/-- Claim C10 (confirmed): `extract_qstring_text` is total with result
`None` whenever the address lies outside every region, or every region
containing it has no lax-pattern match at or after the address. -/
theorem claim10_extract_qstring_text_total (R : List Region) (a : Nat)
    (h : (∀ r ∈ R, ¬(r.base ≤ a ∧ a < r.base + r.data.length)) ∨
      (∀ r ∈ R, (r.base ≤ a ∧ a < r.base + r.data.length) →
        laxSearchFrom r.data (a - r.base) = none)) :
    extract_qstring_text R a = none := by
  have h2 : ∀ r ∈ R, (r.base ≤ a ∧ a < r.base + r.data.length) →
      laxSearchFrom r.data (a - r.base) = none := by
    rcases h with h | h
    · intro r hr hc
      exact absurd hc (h r hr)
    · exact h
  clear h
  induction R with
  | nil => rfl
  | cons r rs ih =>
    by_cases hc : r.base ≤ a ∧ a < r.base + r.data.length
    · have hn := h2 r (List.mem_cons_self r rs) hc
      simp only [extract_qstring_text, hc, if_pos, hn]
      exact ih (fun s hs => h2 s (List.mem_cons_of_mem r hs))
    · simp only [extract_qstring_text, hc, if_neg, not_false_iff]
      exact ih (fun s hs => h2 s (List.mem_cons_of_mem r hs))

/-- Witness for C10 at an address below every region. -/
theorem claim10_witness : extract_qstring_text [qRegion] 0 = none :=
  claim10_extract_qstring_text_total [qRegion] 0 (Or.inl (by decide))

/-- Claim C5 (amended): `is_raw_user(A)` implies five successful
recursive QString recognitions at the pointers read at
`A + {16, 384, 392, 400, 560}` — the offsets of the table in use
(peer name, firstname, lastname, username, phone). -/
theorem claim5_is_raw_user_closure (R : List Region) (a : Nat)
    (h : is_raw_user R a = true) :
    ∀ off ∈ [16, 384, 392, 400, 560], ∃ bs,
      extract_surroundings R (a + off) 0 8 = some bs ∧
      is_address_of_qstring_contents R (leVal bs) = true := by
  intro off hoff
  rw [is_raw_user, List.all_eq_true] at h
  have h2 := h off hoff
  cases he : extract_surroundings R (a + off) 0 8 with
  | none => rw [he] at h2; cases h2
  | some bs =>
    rw [he] at h2
    exact ⟨bs, rfl, h2⟩

/-- Claim C5 counterexample: a memory image in which `is_raw_user`
accepts the user at 0x1000 although the word at offset 0 is the null
pointer, whose target is no QString contents: the literal offsets
`{0, 192, 200, 208, 368}` of the claim do not govern the validation. -/
theorem claim5_counterexample :
    is_raw_user [userRegion, qRegion] 0x1000 = true ∧
    extract_surroundings [userRegion, qRegion] (0x1000 + 0) 0 8 =
      some (List.replicate 8 0) ∧
    is_address_of_qstring_contents [userRegion, qRegion]
      (leVal (List.replicate 8 0)) = false := by decide

/-- Witness for the C5 closure on the concrete valid user image, at the
phone offset 560. -/
theorem claim5_witness :
    ∃ bs, extract_surroundings [userRegion, qRegion] (0x1000 + 560) 0 8 = some bs ∧
      is_address_of_qstring_contents [userRegion, qRegion] (leVal bs) = true :=
  claim5_is_raw_user_closure [userRegion, qRegion] 0x1000 (by decide) 560 (by decide)

/-- A positive QString-contents recognition names a containing region. -/
theorem isAddr_exists_contains (R : List Region) (a : Nat)
    (h : is_address_of_qstring_contents R a = true) :
    ∃ r ∈ R, r.base ≤ a ∧ a < r.base + r.data.length := by
  induction R with
  | nil => cases h
  | cons r rs ih =>
    by_cases hc : r.base ≤ a ∧ a < r.base + r.data.length
    · exact ⟨r, List.mem_cons_self r rs, hc⟩
    · simp only [is_address_of_qstring_contents, hc, if_neg, not_false_iff] at h
      obtain ⟨s, hs, hcs⟩ := ih h
      exact ⟨s, List.mem_cons_of_mem r hs, hcs⟩

/-- Claim C3 (amended, forward direction): in a dump set with pairwise
disjoint regions, a positive recognition at `A` means the lax search of
the containing region finds its match exactly at `A`'s offset, and
`extract_qstring_text(A)` returns the decode of precisely that match
(signed 32-bit count, slice clamped to the match, sentinel on a decode
failure). -/
theorem claim3_qstring_recognition_extract_agreement (R : List Region) (a : Nat)
    (hsep : R.Pairwise regionsSeparate)
    (h : is_address_of_qstring_contents R a = true) :
    ∃ r ∈ R, (r.base ≤ a ∧ a < r.base + r.data.length) ∧
      ∃ len, laxSearchFrom r.data (a - r.base) = some (a - r.base, len) ∧
        extract_qstring_text R a =
          some (qstringTextOfMatch ((r.data.drop (a - r.base)).take len)) := by
  induction R with
  | nil => cases h
  | cons r rs ih =>
    rw [List.pairwise_cons] at hsep
    by_cases hc : r.base ≤ a ∧ a < r.base + r.data.length
    · cases hs : laxSearchFrom r.data (a - r.base) with
      | none =>
        rw [is_address_of_qstring_contents] at h
        simp only [hc, if_pos, hs] at h
        obtain ⟨s, hsmem, hcs⟩ := isAddr_exists_contains rs a h
        rcases hsep.1 s hsmem with hlt | hlt <;> omega
      | some pl =>
        obtain ⟨p, len⟩ := pl
        by_cases hp : p = a - r.base
        · subst hp
          refine ⟨r, List.mem_cons_self r rs, hc, len, hs, ?_⟩
          rw [extract_qstring_text]
          simp [hc, hs]
        · rw [is_address_of_qstring_contents] at h
          simp only [hc, if_pos, hs, hp, if_neg, not_false_iff] at h
          obtain ⟨s, hsmem, hcs⟩ := isAddr_exists_contains rs a h
          rcases hsep.1 s hsmem with hlt | hlt <;> omega
    · rw [is_address_of_qstring_contents] at h
      simp only [hc, if_neg, not_false_iff] at h
      obtain ⟨s, hsmem, hcs, len, hsr, hext⟩ := ih hsep.2 h
      refine ⟨s, List.mem_cons_of_mem r hsmem, hcs, len, hsr, ?_⟩
      rw [extract_qstring_text]
      simp only [hc, if_neg, not_false_iff]
      exact hext

/-- Claim C3 counterexample: at 0x3000 the recognition holds, the
spec-side decode of the N = 2 code units at offset 24 is the string
`A\x00`, yet `extract_qstring_text` returns the sentinel string: the
match's non-greedy terminator cuts the text bytes to an odd count and
the decode fails, so recognition and spec-side decoding do not agree. -/
theorem claim3_counterexample :
    is_address_of_qstring_contents [c3Region] 0x3000 = true ∧
    qstringTextSpec [c3Region] 0x3000 = some [65, 0] ∧
    extract_qstring_text [c3Region] 0x3000 = some utf16ErrorText ∧
    extract_qstring_text [c3Region] 0x3000 ≠ qstringTextSpec [c3Region] 0x3000 := by
  decide

/-- Witness for the C3 agreement at the specification's scenario-1
region (`Hello`). -/
theorem claim3_witness :
    ∃ r ∈ [helloRegion],
      (r.base ≤ 0x10000 ∧ 0x10000 < r.base + r.data.length) ∧
      ∃ len, laxSearchFrom r.data (0x10000 - r.base) = some (0x10000 - r.base, len) ∧
        extract_qstring_text [helloRegion] 0x10000 =
          some (qstringTextOfMatch ((r.data.drop (0x10000 - r.base)).take len)) :=
  claim3_qstring_recognition_extract_agreement [helloRegion] 0x10000
    (List.pairwise_singleton _ _) (by decide)

/-- Membership in a date-insertion. -/
theorem mem_insertByDate {x m : TDMessage} {l : List TDMessage} :
    x ∈ insertByDate m l ↔ x = m ∨ x ∈ l := by
  induction l with
  | nil => simp [insertByDate]
  | cons y ys ih =>
    by_cases hd : m.date.getD 0 ≤ y.date.getD 0
    · simp [insertByDate, hd]
    · simp only [insertByDate, hd, if_neg, not_false_iff, List.mem_cons, ih]
      tauto

/-- Membership is preserved by the date sort. -/
theorem mem_sortByDate {x : TDMessage} {l : List TDMessage} :
    x ∈ sortByDate l ↔ x ∈ l := by
  induction l with
  | nil => simp [sortByDate]
  | cons y ys ih => simp [sortByDate, mem_insertByDate, ih]

/-- Membership in the output of `messages.sort` comes from the input. -/
theorem mem_sortMessagesByDate {l l2 : List TDMessage}
    (h : sortMessagesByDate l = Except.ok l2) {x : TDMessage} (hx : x ∈ l2) :
    x ∈ l := by
  rw [sortMessagesByDate] at h
  by_cases h1 : l.length ≤ 1
  · simp only [h1, if_pos] at h
    cases h
    exact hx
  · simp only [h1, if_neg, not_false_iff] at h
    by_cases h2 : l.all (fun m => m.date.isSome)
    · simp only [h2, if_pos] at h
      cases h
      exact mem_sortByDate.mp hx
    · simp [h2] at h

/-- Every message produced by the conversion loop comes from some input
record via `create_message`. -/
theorem createMessagesLoop_mem {mds : List MsgDict} {msgs : List TDMessage}
    (h : createMessagesLoop mds = Except.ok msgs) {m : TDMessage} (hm : m ∈ msgs) :
    ∃ d ∈ mds, create_message d = Except.ok (some m) := by
  induction mds generalizing msgs with
  | nil =>
    rw [createMessagesLoop] at h
    cases h
    cases hm
  | cons d rest ih =>
    rw [createMessagesLoop] at h
    rw [exceptBind_ok] at h
    obtain ⟨m?, hd, h⟩ := h
    rw [exceptBind_ok] at h
    obtain ⟨tail, htail, h⟩ := h
    cases m? with
    | some m2 =>
      cases h
      rcases List.mem_cons.mp hm with rfl | hm2
      · exact ⟨d, List.mem_cons_self d rest, hd⟩
      · obtain ⟨d2, hd2, hc⟩ := ih htail hm2
        exact ⟨d2, List.mem_cons_of_mem d hd2, hc⟩
    | none =>
      cases h
      obtain ⟨d2, hd2, hc⟩ := ih htail hm
      exact ⟨d2, List.mem_cons_of_mem d hd2, hc⟩

/-- Every message of a created conversation comes from a record of the
dictionary's `messages` list via `create_message`. -/
theorem create_conversation_messages_mem {cf : ConvFull} {conv : TDConv}
    (h : create_conversation cf = Except.ok (some conv)) {m : TDMessage}
    (hm : m ∈ conv.messages) :
    ∃ d ∈ cf.messages.getD [], create_message d = Except.ok (some m) := by
  have hmz : ∀ ty c0, convObjOfType ty = some c0 → c0.messages = [] := by
    intro ty c0 hc0
    rw [convObjOfType] at hc0
    split at hc0 <;> [skip; split at hc0] <;> [skip; skip; split at hc0] <;>
      simp_all <;> subst hc0 <;> rfl
  rw [create_conversation] at h
  split at h
  · simp at h
  next ty hty =>
    split at h
    · simp at h
    next c0 hc0 =>
      split at h
      next hmsgs =>
        rw [Except.ok.injEq, Option.some.injEq] at h
        subst h
        simp [hmz ty c0 hc0] at hm
      next mds hmsgs =>
        rw [exceptBind_ok] at h
        obtain ⟨msgs, hloop, h⟩ := h
        rw [exceptBind_ok] at h
        obtain ⟨sorted, hsort, h⟩ := h
        rw [hmsgs, Option.getD_some]
        have hmem : m ∈ sorted := by
          split at h <;> [skip; split at h] <;>
            (rw [Except.ok.injEq, Option.some.injEq] at h; subst h; simpa using hm)
        exact createMessagesLoop_mem hloop (mem_sortMessagesByDate hsort hmem)

/-- Claim C9 (confirmed): a message record without a `text` key yields
no message object, and every message object inside any created
conversation arises from some record via `create_message`, so a message
whose text was not recovered never appears in any conversation. -/
theorem claim9_message_without_text_absent (d : MsgDict) (hd : d.text = none) :
    create_message d = Except.ok none ∧
    ∀ cf conv, create_conversation cf = Except.ok (some conv) →
      ∀ m ∈ conv.messages, ∃ d2 ∈ cf.messages.getD [],
        create_message d2 = Except.ok (some m) := by
  constructor
  · rw [create_message, hd]
  · intro cf conv h m hm
    exact create_conversation_messages_mem h hm

/-- Witness for C9 at a concrete record with date and no text. -/
theorem claim9_witness :
    create_message { date := some 3 } = Except.ok none ∧
    ∀ cf conv, create_conversation cf = Except.ok (some conv) →
      ∀ m ∈ conv.messages, ∃ d2 ∈ cf.messages.getD [],
        create_message d2 = Except.ok (some m) :=
  claim9_message_without_text_absent { date := some 3 } rfl

/-- The empty record satisfies the filter invariant. -/
theorem adStrInv_empty : adStrInv {} := by
  intro t ht
  rcases ht with h | h | h | h | h | h | h <;> cases h

/-- The file branch establishes the filter invariant. -/
theorem attachFileBranch_inv {R : List Region} {raw : List Nat} {ad : AttachDict}
    (h : attachFileBranch R raw = Except.ok ad) : adStrInv ad := by
  rw [attachFileBranch] at h
  rw [exceptBind_ok] at h
  obtain ⟨docAddr, hdoc, h⟩ := h
  split at h
  · split at h
    next dw hdw =>
      rw [exceptBind_ok] at h
      obtain ⟨fnAddr, hfn, h⟩ := h
      rw [exceptBind_ok] at h
      obtain ⟨ftAddr, hft, h⟩ := h
      dsimp only at h
      split at h <;>
      · rw [Except.ok.injEq] at h
        subst h
        intro t ht
        rcases ht with ht | ht | ht | ht | ht | ht | ht <;>
          simp only at ht <;> first
          | exact strFilter_some ht
          | cases ht
    next hdw =>
      rw [Except.ok.injEq] at h
      subst h
      exact adStrInv_empty
  · rw [Except.ok.injEq] at h
    subst h
    exact adStrInv_empty

/-- The shared-contact branch preserves the filter invariant. -/
theorem attachContactBranch_inv {R : List Region} {raw : List Nat}
    {ad ad2 : AttachDict} (hinv : adStrInv ad)
    (h : attachContactBranch R raw ad = Except.ok ad2) : adStrInv ad2 := by
  rw [attachContactBranch] at h
  rw [exceptBind_ok] at h
  obtain ⟨fnAddr, hfn, h⟩ := h
  rw [exceptBind_ok] at h
  obtain ⟨lnAddr, hln, h⟩ := h
  rw [exceptBind_ok] at h
  obtain ⟨pnAddr, hpn, h⟩ := h
  dsimp only at h
  split at h <;>
  · rw [Except.ok.injEq] at h
    subst h
    intro t ht
    rcases ht with ht | ht | ht | ht | ht | ht | ht <;> simp only at ht <;> first
    | exact strFilter_some ht
    | exact hinv t (by tauto)

/-- The geographic-location branch preserves the filter invariant. -/
theorem attachLocationBranch_inv {R : List Region} {raw : List Nat}
    {ad ad2 : AttachDict} (hinv : adStrInv ad)
    (h : attachLocationBranch R raw ad = Except.ok ad2) : adStrInv ad2 := by
  rw [attachLocationBranch] at h
  rw [exceptBind_ok] at h
  obtain ⟨lat, hlat, h⟩ := h
  rw [exceptBind_ok] at h
  obtain ⟨lon, hlon, h⟩ := h
  rw [exceptBind_ok] at h
  obtain ⟨tAddr, ht2, h⟩ := h
  rw [exceptBind_ok] at h
  obtain ⟨dAddr, hd2, h⟩ := h
  dsimp only at h
  split at h <;>
  · rw [Except.ok.injEq] at h
    subst h
    intro t ht
    rcases ht with ht | ht | ht | ht | ht | ht | ht <;> simp only at ht <;> first
    | exact strFilter_some ht
    | exact hinv t (by tauto)

/-- Reduction of a bind on an already-successful computation. -/
theorem exceptBind_pure {α β : Type} (a : α) (f : α → Except PyErr β) :
    (Except.ok a >>= f) = f a := rfl

/-- Every string field of an `analyze_message_attachment` record passed
through the filter. -/
theorem analyze_message_attachment_inv {R : List Region} {raw : List Nat}
    {ad : AttachDict} (h : analyze_message_attachment R raw = Except.ok ad) :
    adStrInv ad := by
  rw [analyze_message_attachment] at h
  rw [exceptBind_ok] at h
  obtain ⟨ad1, h1, h⟩ := h
  rw [exceptBind_ok] at h
  obtain ⟨mc, hmc, h⟩ := h
  have hi1 : adStrInv ad1 := attachFileBranch_inv h1
  dsimp only at h
  split at h
  · rw [exceptBind_ok] at h
    obtain ⟨ad2, h2, h⟩ := h
    have hi2 := attachContactBranch_inv hi1 h2
    rw [exceptBind_ok] at h
    obtain ⟨ml, hml, h⟩ := h
    split at h
    · exact attachLocationBranch_inv hi2 h
    · rw [Except.ok.injEq] at h
      subst h
      exact hi2
  · rw [exceptBind_pure, exceptBind_ok] at h
    obtain ⟨ml, hml, h⟩ := h
    split at h
    · exact attachLocationBranch_inv hi1 h
    · rw [Except.ok.injEq] at h
      subst h
      exact hi1

/-- The conversation-name field passes through the filter. -/
theorem analyze_conversation_name_filtered {R : List Region} {raw : List Nat}
    {cd : ConvDict} (h : analyze_conversation R raw = Except.ok cd) :
    ∀ t, cd.name = some t → t ≠ [] ∧ t ≠ [0] := by
  rw [analyze_conversation] at h
  rw [exceptBind_ok] at h
  obtain ⟨nameAddr, hna, h⟩ := h
  dsimp only at h
  rw [exceptBind_ok] at h
  obtain ⟨pid, hpid, h⟩ := h
  rw [Except.ok.injEq] at h
  subst h
  intro t ht
  exact strFilter_some ht

/-- The text field stored by `analyze_message` is exactly the (possibly
`None`) `extract_qstring_text` result with one trailing underscore
stripped, and is only stored under a positive recognition. -/
theorem analyze_message_text_shape {R : List Region} {raw : List Nat}
    {md : MsgDict} (h : analyze_message R raw = Except.ok md) :
    ∀ t?, md.text = some t? →
      ∃ a, leInt (pySliceN raw 48 56) = Except.ok a ∧
        is_address_of_qstring_contents R a = true ∧
        t? = (extract_qstring_text R a).map stripTrailingUnderscore := by
  rw [analyze_message] at h
  rw [exceptBind_ok] at h
  obtain ⟨textAddr, hta, h⟩ := h
  dsimp only at h
  rw [exceptBind_ok] at h
  obtain ⟨d, hd, h⟩ := h
  rw [exceptBind_ok] at h
  obtain ⟨fromAddr, hfa, h⟩ := h
  rw [exceptBind_ok] at h
  obtain ⟨senderField, hsf, h⟩ := h
  rw [exceptBind_ok] at h
  obtain ⟨histAddr, hha, h⟩ := h
  rw [exceptBind_ok] at h
  obtain ⟨convField, hcf, h⟩ := h
  rw [exceptBind_ok] at h
  obtain ⟨attachField, haf, h⟩ := h
  rw [Except.ok.injEq] at h
  subst h
  intro t? ht
  simp only at ht
  split at ht
  next hrec =>
    rw [Option.some.injEq] at ht
    exact ⟨textAddr, hta, hrec, ht.symm⟩
  next hrec => cases ht

/-- Claim C6 (amended): every recovered string placed in a conversation
record or an attachment record is non-empty and not the single NUL; the
message text field, by contrast, is stored unfiltered — it is exactly
the extracted string with one trailing underscore stripped, and may be
empty or the single NUL (`analyze_user` never returns, see C1). -/
theorem claim6_string_filtering :
    (∀ (R : List Region) (raw : List Nat) (cd : ConvDict),
       analyze_conversation R raw = Except.ok cd →
       ∀ t, cd.name = some t → t ≠ [] ∧ t ≠ [0]) ∧
    (∀ (R : List Region) (raw : List Nat) (ad : AttachDict),
       analyze_message_attachment R raw = Except.ok ad →
       ∀ t, (ad.filename = some t ∨ ad.filetype = some t ∨ ad.firstname = some t ∨
             ad.lastname = some t ∨ ad.phone_number = some t ∨ ad.title = some t ∨
             ad.description = some t) → t ≠ [] ∧ t ≠ [0]) ∧
    (∀ (R : List Region) (raw : List Nat) (md : MsgDict),
       analyze_message R raw = Except.ok md →
       ∀ t?, md.text = some t? →
         ∃ a, leInt (pySliceN raw 48 56) = Except.ok a ∧
           is_address_of_qstring_contents R a = true ∧
           t? = (extract_qstring_text R a).map stripTrailingUnderscore) :=
  ⟨fun _ _ _ h => analyze_conversation_name_filtered h,
   fun _ _ _ h => analyze_message_attachment_inv h,
   fun _ _ _ h => analyze_message_text_shape h⟩

/-- Claim C6 counterexample: the message window `c6win` points its text
at a QString holding the empty string; `analyze_message` stores the
empty string in the record's `text` field, so not every recovered
string placed in a record is non-empty. -/
theorem claim6_counterexample :
    analyze_message [qRegion] c6win = Except.ok c6MsgDict ∧
    c6MsgDict.text = some (some []) := by
  exact ⟨by decide, rfl⟩

/-- Witness for the C6 filtering at a concrete conversation window whose
name decodes to `Hi`. -/
theorem claim6_witness : ([72, 105] : List Nat) ≠ [] ∧ ([72, 105] : List Nat) ≠ [0] :=
  claim6_string_filtering.1 [hiRegion] convWin c6ConvDict (by decide) [72, 105] rfl

/-- The first organiser pass keeps every collected conversation id
present and pairwise distinct, given that the incoming message records
carry ids. -/
theorem obcCollectConvs_inv (messages : List MsgDict)
    (hids : ∀ md ∈ messages, ∀ cd, md.conversation = some cd → cd.id.isSome) :
    ∀ cs, (∀ c ∈ cs, c.conv.id.isSome) →
      (cs.map (fun c => c.conv.id)).Pairwise (· ≠ ·) →
      (∀ c ∈ obcCollectConvs messages cs, c.conv.id.isSome) ∧
      ((obcCollectConvs messages cs).map (fun c => c.conv.id)).Pairwise (· ≠ ·) := by
  induction messages with
  | nil => intro cs h1 h2; exact ⟨h1, h2⟩
  | cons md rest ih =>
    intro cs h1 h2
    have hrest : ∀ md2 ∈ rest, ∀ cd, md2.conversation = some cd → cd.id.isSome :=
      fun md2 hmd2 => hids md2 (List.mem_cons_of_mem md hmd2)
    cases hcd : md.conversation with
    | none =>
      rw [obcCollectConvs, hcd]
      exact ih hrest cs h1 h2
    | some cd =>
      rw [obcCollectConvs, hcd]
      by_cases hrep : is_conversation_repeated cs cd = true
      · simp only [hrep, if_pos]
        exact ih hrest cs h1 h2
      · simp only [hrep, if_neg, not_false_iff]
        have hcdid : cd.id.isSome := hids md (List.mem_cons_self md rest) cd hcd
        obtain ⟨i, hi⟩ := Option.isSome_iff_exists.mp hcdid
        have hne : ∀ c ∈ cs, c.conv.id ≠ cd.id := by
          intro c hcs heq
          apply hrep
          rw [is_conversation_repeated, hi]
          simp only [List.any_eq_true, decide_eq_true_eq]
          exact ⟨c, hcs, heq.trans hi⟩
        apply ih hrest
        · intro c hc
          rcases List.mem_append.mp hc with hc | hc
          · exact h1 c hc
          · rw [List.mem_singleton.mp hc]
            exact hcdid
        · rw [List.map_append, List.pairwise_append]
          refine ⟨h2, List.pairwise_singleton _ _, ?_⟩
          intro x hx y hy
          simp only [List.map_cons, List.map_nil, List.mem_singleton] at hy
          subst hy
          obtain ⟨c, hc, rfl⟩ := List.mem_map.mp hx
          exact hne c hc

/-- Inserting a message never changes the conversation records, only the
per-conversation `messages` lists. -/
theorem insert_message_preserves_conv {cs cs2 : List ConvFull} {md : MsgDict}
    (h : insert_message_in_right_conversation cs md = Except.ok cs2) :
    cs2.map (fun c => c.conv) = cs.map (fun c => c.conv) := by
  induction cs generalizing cs2 with
  | nil =>
    rw [insert_message_in_right_conversation] at h
    rw [Except.ok.injEq] at h
    subst h
    rfl
  | cons c rest ih =>
    rw [insert_message_in_right_conversation] at h
    rw [exceptBind_ok] at h
    obtain ⟨ci, hci, h⟩ := h
    rw [exceptBind_ok] at h
    obtain ⟨mi, hmi, h⟩ := h
    split at h
    · split at h
      next l hl =>
        rw [exceptBind_ok] at h
        obtain ⟨rest2, hrest2, h⟩ := h
        rw [Except.ok.injEq] at h
        subst h
        simp only [List.map_cons]
        rw [ih hrest2]
      next hl => cases h
    · rw [exceptBind_ok] at h
      obtain ⟨rest2, hrest2, h⟩ := h
      rw [Except.ok.injEq] at h
      subst h
      simp only [List.map_cons]
      rw [ih hrest2]

/-- The second organiser pass preserves the conversation records. -/
theorem obcPlaceMessages_preserves_conv {messages : List MsgDict}
    {cs cs2 : List ConvFull} (h : obcPlaceMessages messages cs = Except.ok cs2) :
    cs2.map (fun c => c.conv) = cs.map (fun c => c.conv) := by
  induction messages generalizing cs with
  | nil =>
    rw [obcPlaceMessages] at h
    rw [Except.ok.injEq] at h
    subst h
    rfl
  | cons md rest ih =>
    rw [obcPlaceMessages] at h
    split at h
    next cd hcd =>
      split at h
      · rw [exceptBind_ok] at h
        obtain ⟨cs3, hins, h⟩ := h
        rw [ih h, insert_message_preserves_conv hins]
      · exact ih h
    next hcd => exact ih h

/-- The conversation id of a created conversation is the dictionary's. -/
theorem create_conversation_id {cf : ConvFull} {c : TDConv}
    (h : create_conversation cf = Except.ok (some c)) :
    c.conversation_id = cf.conv.id := by
  rw [create_conversation] at h
  split at h
  · simp at h
  next ty hty =>
    split at h
    · simp at h
    next c0 hc0 =>
      split at h
      next hmsgs =>
        rw [Except.ok.injEq, Option.some.injEq] at h
        subst h
        rfl
      next mds hmsgs =>
        rw [exceptBind_ok] at h
        obtain ⟨msgs, hloop, h⟩ := h
        rw [exceptBind_ok] at h
        obtain ⟨sorted, hsort, h⟩ := h
        split at h <;> [skip; split at h] <;>
          (rw [Except.ok.injEq, Option.some.injEq] at h; subst h; rfl)

/-- Every created conversation in the loop's output stems from a
dictionary in the input. -/
theorem createConvsLoop_mem {cfs : List ConvFull} {convs : List TDConv}
    (h : createConvsLoop cfs = Except.ok convs) {c : TDConv} (hc : c ∈ convs) :
    ∃ cf ∈ cfs, create_conversation cf = Except.ok (some c) := by
  induction cfs generalizing convs with
  | nil =>
    rw [createConvsLoop] at h
    rw [Except.ok.injEq] at h
    subst h
    cases hc
  | cons cf rest ih =>
    rw [createConvsLoop] at h
    rw [exceptBind_ok] at h
    obtain ⟨c?, hcf, h⟩ := h
    rw [exceptBind_ok] at h
    obtain ⟨tail, htail, h⟩ := h
    cases c? with
    | some c2 =>
      rw [Except.ok.injEq] at h
      subst h
      rcases List.mem_cons.mp hc with rfl | hc2
      · exact ⟨cf, List.mem_cons_self cf rest, hcf⟩
      · obtain ⟨cf2, hcf2, hcc⟩ := ih htail hc2
        exact ⟨cf2, List.mem_cons_of_mem cf hcf2, hcc⟩
    | none =>
      rw [Except.ok.injEq] at h
      subst h
      obtain ⟨cf2, hcf2, hcc⟩ := ih htail hc
      exact ⟨cf2, List.mem_cons_of_mem cf hcf2, hcc⟩

/-- Distinct dictionary ids yield distinct conversation ids. -/
theorem createConvsLoop_pairwise {cfs : List ConvFull} {convs : List TDConv}
    (hp : (cfs.map (fun cf => cf.conv.id)).Pairwise (· ≠ ·))
    (h : createConvsLoop cfs = Except.ok convs) :
    (convs.map (fun c => c.conversation_id)).Pairwise (· ≠ ·) := by
  induction cfs generalizing convs with
  | nil =>
    rw [createConvsLoop] at h
    rw [Except.ok.injEq] at h
    subst h
    exact List.Pairwise.nil
  | cons cf rest ih =>
    rw [createConvsLoop] at h
    rw [exceptBind_ok] at h
    obtain ⟨c?, hcf, h⟩ := h
    rw [exceptBind_ok] at h
    obtain ⟨tail, htail, h⟩ := h
    rw [List.map_cons, List.pairwise_cons] at hp
    cases c? with
    | some c =>
      rw [Except.ok.injEq] at h
      subst h
      rw [List.map_cons, List.pairwise_cons]
      refine ⟨?_, ih hp.2 htail⟩
      intro b hb
      obtain ⟨d, hd, rfl⟩ := List.mem_map.mp hb
      obtain ⟨cf2, hcf2, hcc⟩ := createConvsLoop_mem htail hd
      rw [create_conversation_id hcf, create_conversation_id hcc]
      exact hp.1 cf2.conv.id (List.mem_map.mpr ⟨cf2, hcf2, rfl⟩)
    | none =>
      rw [Except.ok.injEq] at h
      subst h
      exact ih hp.2 htail

/-- Inversion of `create_account`: where the conversations of the
produced account come from. -/
theorem create_account_conversations {ad : AccountDict} {acc : TDAccount}
    (h : create_account ad = Except.ok (some acc)) :
    (ad.conversations = none ∧ acc.conversations = []) ∨
    (∃ cfs convs, ad.conversations = some cfs ∧
      createConvsLoop cfs = Except.ok convs ∧ acc.conversations = convs) := by
  rw [create_account] at h
  split at h
  · simp at h
  next uds huds =>
    dsimp only at h
    split at h
    next hconvs =>
      rw [Except.ok.injEq, Option.some.injEq] at h
      subst h
      left
      refine ⟨hconvs, ?_⟩
      cases hod : ad.owner with
      | none => rfl
      | some od => cases hcu : create_user od <;> simp [hcu]
    next cfs hconvs =>
      rw [exceptBind_ok] at h
      obtain ⟨convs, hloop, h⟩ := h
      rw [exceptBind_ok] at h
      obtain ⟨users2, husers, h⟩ := h
      rw [Except.ok.injEq, Option.some.injEq] at h
      subst h
      right
      exact ⟨cfs, convs, hconvs, hloop, rfl⟩

/-- Inversion of `organize_before_creation` into its two passes. -/
theorem organize_before_creation_shape {users : List UserDict}
    {messages : List MsgDict} {ad : AccountDict}
    (h : organize_before_creation [] users [] messages [] = Except.ok [ad]) :
    ∃ convs2, obcPlaceMessages messages (obcCollectConvs messages []) =
        Except.ok convs2 ∧
      ad = { users := some users, conversations := some convs2 } := by
  rw [organize_before_creation] at h
  rw [exceptBind_ok] at h
  obtain ⟨convs2, hplace, h⟩ := h
  rw [Except.ok.injEq] at h
  exact ⟨convs2, hplace, (List.cons.injEq _ _ _ _).mp h |>.1 |>.symm⟩

/-- Setting the head owner does not touch any conversations. -/
theorem setHeadOwner_convs (accounts : List TDAccount) (u : TDUser) :
    (setHeadOwner accounts u).map (fun a => a.conversations) =
      accounts.map (fun a => a.conversations) := by
  cases accounts <;> rfl

/-- `organize_after_creation` changes at most the owner of the first
account; every account keeps its conversations. -/
theorem organize_after_creation_convs (accounts : List TDAccount) :
    (organize_after_creation accounts).map (fun a => a.conversations) =
      accounts.map (fun a => a.conversations) := by
  rw [organize_after_creation]
  split
  · split
    · split
      · exact setHeadOwner_convs _ _
      · split
        · exact setHeadOwner_convs _ _
        · rfl
    · rfl
  · rfl
  · dsimp only
    split
    · split
      · exact setHeadOwner_convs _ _
      · rfl
    · rfl

/-- Claim C7 (amended): through the organiser and the factory, the
conversations of the produced account have pairwise distinct ids
whenever every analysed message's conversation record carries an id (as
`analyze_conversation` always provides), and the later owner inference
leaves all conversations untouched.  The users of the account are *not*
deduplicated: only message senders are checked against the list, while
analysed user records are carried over verbatim (see the
counterexample). -/
theorem claim7_conversation_ids_distinct (users : List UserDict)
    (messages : List MsgDict) (ad : AccountDict) (acc : TDAccount)
    (hids : ∀ md ∈ messages, ∀ cd, md.conversation = some cd → cd.id.isSome)
    (h1 : organize_before_creation [] users [] messages [] = Except.ok [ad])
    (h2 : create_account ad = Except.ok (some acc)) :
    acc.conversations.Pairwise
      (fun c d => c.conversation_id ≠ d.conversation_id) ∧
    (organize_after_creation [acc]).map (fun a => a.conversations) =
      [acc.conversations] := by
  constructor
  · obtain ⟨convs2, hplace, had⟩ := organize_before_creation_shape h1
    rcases create_account_conversations h2 with ⟨hnone, hempty⟩ |
      ⟨cfs, convs, hsome, hloop, hacc⟩
    · rw [hempty]
      exact List.Pairwise.nil
    · have hcfs : convs2 = cfs := by
        rw [had] at hsome
        exact (Option.some.injEq _ _).mp hsome
      rw [hcfs] at hplace
      have hcoll := obcCollectConvs_inv messages hids [] (by intro c hc; cases hc)
        List.Pairwise.nil
      have hmapconv := obcPlaceMessages_preserves_conv hplace
      have hpair2 : (cfs.map (fun cf => cf.conv.id)).Pairwise (· ≠ ·) := by
        have h4 : cfs.map (fun cf => cf.conv.id) =
            (obcCollectConvs messages []).map (fun cf => cf.conv.id) := by
          calc cfs.map (fun cf => cf.conv.id)
              = (cfs.map (fun c => c.conv)).map (fun cd => cd.id) := by
                simp [List.map_map, Function.comp]
            _ = ((obcCollectConvs messages []).map (fun c => c.conv)).map
                  (fun cd => cd.id) := by rw [hmapconv]
            _ = (obcCollectConvs messages []).map (fun cf => cf.conv.id) := by
                simp [List.map_map, Function.comp]
        rw [h4]
        exact hcoll.2
      rw [hacc]
      have h5 := createConvsLoop_pairwise hpair2 hloop
      rwa [List.pairwise_map] at h5
  · exact organize_after_creation_convs [acc]

/-- Claim C7 counterexample: two analysed user records with the same
non-null id 5 pass through organisation, account creation and the owner
inference untouched, so the final tree's account holds two users with
equal non-null ids. -/
theorem claim7_counterexample :
    organize_before_creation [] [c7uA, c7uB] [] [] [] = Except.ok [c7AcctDict] ∧
    create_account c7AcctDict = Except.ok (some c7Account) ∧
    organize_after_creation [c7Account] = [c7Account] ∧
    c7Account.users.map (fun u => u.user_id) = [some 5, some 5] :=
  ⟨rfl, rfl, rfl, rfl⟩

/-- Witness for the C7 distinct-conversation-ids theorem on a one-message
pipeline. -/
theorem claim7_witness :
    c7wAccount.conversations.Pairwise
      (fun c d => c.conversation_id ≠ d.conversation_id) ∧
    (organize_after_creation [c7wAccount]).map (fun a => a.conversations) =
      [c7wAccount.conversations] :=
  claim7_conversation_ids_distinct [] [c7wMsg] c7wAcctDict c7wAccount
    (by decide) (by decide) (by decide)

/-- A user reported by `find_repeated_users` comes from its input. -/
theorem mem_findRepeatedAux {l uniq rep : List TDUser} {x : TDUser}
    (h : x ∈ findRepeatedAux l uniq rep) : x ∈ rep ∨ x ∈ l := by
  induction l generalizing uniq rep with
  | nil =>
    rw [findRepeatedAux] at h
    exact Or.inl h
  | cons u rest ih =>
    rw [findRepeatedAux] at h
    split at h
    · rcases ih h with hr | hl
      · exact Or.inl hr
      · exact Or.inr (List.mem_cons_of_mem u hl)
    · split at h
      · rcases ih h with hr | hl
        · rcases List.mem_append.mp hr with hr | hr
          · exact Or.inl hr
          · exact Or.inr (List.mem_cons.mpr (Or.inl (List.mem_singleton.mp hr)))
        · exact Or.inr (List.mem_cons_of_mem u hl)
      · rcases ih h with hr | hl
        · exact Or.inl hr
        · exact Or.inr (List.mem_cons_of_mem u hl)

/-- A collected non-contact lies in the users of one of the individual
conversations and has `is_contact` literally `False`. -/
theorem mem_collectNonContacts {cs : List TDConv} {u : TDUser}
    (h : u ∈ collectNonContacts cs) :
    ∃ c ∈ cs, u ∈ c.users ∧ u.is_contact = some false := by
  induction cs with
  | nil => cases h
  | cons c rest ih =>
    rw [collectNonContacts] at h
    rcases List.mem_append.mp h with h | h
    · refine ⟨c, List.mem_cons_self c rest, ?_⟩
      split at h
      next u1 u2 hus =>
        rw [hus]
        rcases List.mem_append.mp h with h | h
        · split at h
          next hc1 =>
            rw [List.mem_singleton.mp h]
            exact ⟨List.mem_cons_self _ _, hc1⟩
          next => cases h
        · split at h
          next hc2 =>
            rw [List.mem_singleton.mp h]
            exact ⟨List.mem_cons_of_mem _ (List.mem_singleton.mpr rfl), hc2⟩
          next => cases h
      next u1 hus =>
        rw [hus]
        split at h
        next hc1 =>
          rw [List.mem_singleton.mp h]
          exact ⟨List.mem_cons_self _ _, hc1⟩
        next => cases h
      next hus => cases h
    · obtain ⟨c2, hc2, hu⟩ := ih h
      exact ⟨c2, List.mem_cons_of_mem c hc2, hu⟩

/-- Membership in the individual-conversation collection. -/
theorem mem_individualConvs {accounts : List TDAccount} {c : TDConv}
    (h : c ∈ individualConvs accounts) :
    ∃ a ∈ accounts, c ∈ a.conversations ∧ c.ctype = CType.individual := by
  induction accounts with
  | nil => cases h
  | cons a rest ih =>
    rw [individualConvs] at h
    rcases List.mem_append.mp h with h | h
    · have := List.mem_filter.mp h
      exact ⟨a, List.mem_cons_self a rest,
        this.1, of_decide_eq_true this.2⟩
    · obtain ⟨a2, ha2, hc⟩ := ih h
      exact ⟨a2, List.mem_cons_of_mem a ha2, hc⟩

/-- A one-element list is its head. -/
theorem accounts_eq_singleton {accounts : List TDAccount} {a : TDAccount}
    (h : accounts.head? = some a) (hl : accounts.length = 1) :
    accounts = [a] := by
  cases accounts with
  | nil => cases h
  | cons x rest =>
    cases rest with
    | nil =>
      rw [List.head?_cons, Option.some.injEq] at h
      rw [h]
    | cons y r2 => simp at hl

/-- With the head account's owner unset before organisation and set
after, the organiser performed the assignment; the conclusion of the
owner rule then follows.  Contradiction helper for the branches in which
the organiser returns the accounts unchanged. -/
theorem owner_unchanged_absurd {accounts : List TDAccount} {a a2 : TDAccount}
    {u : TDUser} (h1 : accounts.head? = some a) (h2 : a.owner = none)
    (h3 : accounts.head? = some a2) (h4 : a2.owner = some u) :
    False := by
  rw [h1, Option.some.injEq] at h3
  subst h3
  rw [h2] at h4
  cases h4

/-- Claim C8 (confirmed): whenever `organize_after_creation` sets an
account owner, that owner appears among the users of an individual
conversation of that account and has `is_contact` false; and with
exactly one individual conversation holding a non-contact and a contact,
the non-contact is chosen. -/
theorem claim8_owner_rule :
    (∀ (accounts : List TDAccount) (a a2 : TDAccount) (u : TDUser),
       accounts.head? = some a → a.owner = none →
       (organize_after_creation accounts).head? = some a2 → a2.owner = some u →
       ∃ c ∈ a2.conversations, c.ctype = CType.individual ∧ u ∈ c.users ∧
         u.is_contact = some false) ∧
    (∀ (a : TDAccount) (c : TDConv) (u v : TDUser),
       a.conversations.filter (fun x => decide (x.ctype = CType.individual)) = [c] →
       c.users = [u, v] →
       ((u.is_contact = some false ∧ v.is_contact = some true →
          organize_after_creation [a] = [{ a with owner := some u }]) ∧
        (u.is_contact = some true ∧ v.is_contact = some false →
          organize_after_creation [a] = [{ a with owner := some v }]))) := by
  constructor
  · intro accounts a a2 u h1 h2 h3 h4
    cases hics : individualConvs accounts with
    | nil =>
      simp only [organize_after_creation, hics] at h3
      exact (owner_unchanged_absurd h1 h2 h3 h4).elim
    | cons c tail =>
      cases tail with
      | nil =>
        simp only [organize_after_creation, hics] at h3
        have hcmem : c ∈ individualConvs accounts := by
          rw [hics]
          exact List.mem_singleton.mpr rfl
        obtain ⟨a3, ha3, hcconv, hcty⟩ := mem_individualConvs hcmem
        rcases hus : c.users with _ | ⟨fu, _ | ⟨su, _ | _⟩⟩ <;>
          rw [hus] at h3 <;> (try dsimp only at h3)
        · exact (owner_unchanged_absurd h1 h2 h3 h4).elim
        · exact (owner_unchanged_absurd h1 h2 h3 h4).elim
        · split at h3
          next hcond =>
            have hacc := accounts_eq_singleton h1 hcond.2.2
            subst hacc
            rw [show setHeadOwner [a] fu = [{ a with owner := some fu }] from
              rfl, List.head?_cons, Option.some.injEq] at h3
            subst h3
            rw [Option.some.injEq] at h4
            subst h4
            have ha3a : a3 = a := List.mem_singleton.mp ha3
            subst ha3a
            exact ⟨c, hcconv, hcty, by rw [hus]; exact List.mem_cons_self _ _,
              hcond.1⟩
          next =>
            split at h3
            next hcond =>
              have hacc := accounts_eq_singleton h1 hcond.2.2
              subst hacc
              rw [show setHeadOwner [a] su = [{ a with owner := some su }] from
                rfl, List.head?_cons, Option.some.injEq] at h3
              subst h3
              rw [Option.some.injEq] at h4
              subst h4
              have ha3a : a3 = a := List.mem_singleton.mp ha3
              subst ha3a
              refine ⟨c, hcconv, hcty, ?_, hcond.2.1⟩
              rw [hus]
              exact List.mem_cons_of_mem fu (List.mem_singleton.mpr rfl)
            next =>
              exact (owner_unchanged_absurd h1 h2 h3 h4).elim
        · exact (owner_unchanged_absurd h1 h2 h3 h4).elim
      | cons c2 tail2 =>
        simp only [organize_after_creation, hics] at h3
        split at h3
        next hcond =>
          split at h3
          next u2 howners =>
            have hacc := accounts_eq_singleton h1 hcond.2
            subst hacc
            rw [show setHeadOwner [a] u2 = [{ a with owner := some u2 }] from
              rfl, List.head?_cons, Option.some.injEq] at h3
            subst h3
            rw [Option.some.injEq] at h4
            subst h4
            have hu2 : u2 ∈ find_repeated_users
                (collectNonContacts (c :: c2 :: tail2)) := by
              rw [howners]
              exact List.mem_singleton.mpr rfl
            rcases mem_findRepeatedAux hu2 with hr | hr
            · cases hr
            · obtain ⟨conv, hconv, humem, hufalse⟩ := mem_collectNonContacts hr
              have hconv2 : conv ∈ individualConvs [a] := by
                rw [hics]
                exact hconv
              obtain ⟨a3, ha3, hcconv, hcty⟩ := mem_individualConvs hconv2
              have ha3a : a3 = a := List.mem_singleton.mp ha3
              subst ha3a
              exact ⟨conv, hcconv, hcty, humem, hufalse⟩
          next =>
            exact (owner_unchanged_absurd h1 h2 h3 h4).elim
        next =>
          exact (owner_unchanged_absurd h1 h2 h3 h4).elim
  · intro a c u v hfilter hus
    have hics : individualConvs [a] = [c] := by
      rw [individualConvs, individualConvs, List.append_nil, hfilter]
    constructor
    · intro hc
      rw [organize_after_creation, hics]
      dsimp only
      rw [hus]
      dsimp only
      rw [if_pos ⟨hc.1, hc.2, rfl⟩]
      rfl
    · intro hc
      rw [organize_after_creation, hics]
      dsimp only
      rw [hus]
      dsimp only
      rw [if_neg ?hne, if_pos ⟨hc.1, hc.2, rfl⟩]
      · rfl
      case hne =>
        intro hcontra
        rw [hc.1] at hcontra
        cases hcontra.1

/-- Witness for the C8 owner rule: with one individual conversation
holding a non-contact and a contact, the non-contact becomes the owner. -/
theorem claim8_witness :
    organize_after_creation [c8acc] = [{ c8acc with owner := some c8uF }] :=
  (claim8_owner_rule.2 c8acc c8conv c8uF c8uT (by decide) rfl).1 ⟨rfl, rfl⟩
